import Mathlib

/-!
Verification of the glossary-generator pipeline (shallow embedding).

The Python source is embedded as executable Lean definitions:
* `src/app/models.py` — data model (`TermStatus`, `GlossaryTermDraft`, `AssetMetadata`, ...).
  The revision of `models.py` present under `src/` predates the rest of the code: it lacks
  the `TermType` enum and the `term_type` field on `GlossaryTermDraft`, both of which are
  imported and used by `src/generators/term_generator.py` and `src/app/activities.py`.
  Those two pieces are modelled from the spec (see their doc comments).
* `src/clients/usage_client.py` — priority scoring and ranking. Python floats are embedded
  as exact rationals (`Rat`); the formulas use only +, *, /, min, so the embedding is the
  exact-arithmetic version of the same formulas.
* `src/generators/term_generator.py` — batched generation with three-layer deduplication.
  The external LLM call is abstracted as an oracle `llm : AssetMetadata → Except String
  LLMTermResult`; an `.error` result stands for any exception raised inside the `try`
  block of `generate_term` (network error, malformed JSON, pydantic validation failure).
* `src/generators/context_builder.py` — token estimation and the truncation ladder, over
  a JSON model with a faithful `json.dumps` (default separators, ensure_ascii).
* `src/clients/llm_client.py` — JSON extraction from free-text LLM responses, with a
  `json.loads`-style recursive-descent reader.
* `src/app/activities.py` — draft persistence (`save_draft_terms`) and publication
  (`publish_terms`) over an explicit key/value store model of the Dapr state store.
-/

/-- Python's `str.lower()`: per-character lowercasing. (Equivalent to core
`String.toLower`, restated by structural recursion over the character list so that
concrete instances evaluate inside the kernel.) -/
def String.lower (s : String) : String := String.mk (s.data.map Char.toLower)

/-- Python's `str.strip()`: remove leading and trailing whitespace. -/
def String.strip (s : String) : String :=
  String.mk (((s.data.dropWhile Char.isWhitespace).reverse.dropWhile
    Char.isWhitespace).reverse)

namespace GlossaryGen

/-- `TermStatus` from `src/app/models.py`: status of a glossary term draft. -/
inductive TermStatus where
  | DRAFT
  | PENDING_REVIEW
  | APPROVED
  | REJECTED
  | PUBLISHED
deriving DecidableEq, Repr

/-- Modelled from the spec: the `TermType` enum (`business_term`, `metric`, `dimension`,
spec §3 / Glossary) is imported by `term_generator.py` from `app.models` but is missing
from the superseded `src/app/models.py` revision. -/
inductive TermType where
  | business_term
  | metric
  | dimension
deriving DecidableEq, Repr

/-- `ColumnMetadata` from `src/app/models.py`. -/
structure ColumnMetadata where
  name : String
  data_type : Option String := none
  description : Option String := none
  is_primary_key : Bool := false
  is_foreign_key : Bool := false
  is_nullable : Bool := true
deriving DecidableEq, Repr

/-- `AssetMetadata` from `src/app/models.py` (fields used by the verified core;
`owner`, `database_name`, `schema_name` are not consulted by the embedded operations).
Python floats are embedded as exact rationals. -/
structure AssetMetadata where
  qualified_name : String
  name : String
  type_name : String
  description : Option String := none
  user_description : Option String := none
  columns : List ColumnMetadata := []
  popularity_score : Rat := 0
  view_count : Int := 0
  query_count : Int := 0
  user_count : Int := 0
  tags : List String := []
  classifications : List String := []
deriving DecidableEq, Repr

/-- `UsageSignals` from `src/app/models.py` (`last_accessed` is never consulted). -/
structure UsageSignals where
  qualified_name : String
  query_frequency : Int := 0
  unique_users : Int := 0
  popularity_score : Rat := 0
deriving DecidableEq, Repr

/-- `GlossaryTermDraft` from `src/app/models.py`.
The `term_type` and `source_column` fields are modelled from the spec (§3 TermDraft:
"term-type tag", "optional source column name"): they are set by `term_generator.py`
and read by `activities.py` but absent from the superseded `src/app/models.py` revision.
`confidence` is a `Literal["high","medium","low"]` in pydantic; it is embedded as a
`String` and the literal check is performed where pydantic would perform it
(at construction in `generate_term`). Timestamps are never consulted by the
embedded operations and are omitted. -/
structure GlossaryTermDraft where
  id : String
  name : String
  definition : String
  short_description : Option String := none
  examples : List String := []
  synonyms : List String := []
  source_assets : List String := []
  confidence : String := "medium"
  status : TermStatus := TermStatus.DRAFT
  term_type : TermType := TermType.business_term
  source_column : Option String := none
  target_glossary_qn : String
  query_frequency : Int := 0
  user_access_count : Int := 0
deriving DecidableEq, Repr

/-- `BatchResult` from `src/app/models.py`. -/
structure BatchResult where
  batch_id : String
  terms_generated : Nat := 0
  terms_failed : Nat := 0
  term_ids : List String := []
  errors : List String := []
deriving DecidableEq, Repr

/-- Python truthiness of an `Optional[str]`: `None` and `""` are falsy. -/
def pyTruthy : Option String → Bool
  | none => false
  | some s => !s.isEmpty

/-- Python's binary `min`: returns the first argument when the two compare equal,
written with an explicit decidable test so that it evaluates by `decide`. -/
def pyMin (a b : Rat) : Rat := if a ≤ b then a else b

/-- `UsageSignalClient.calculate_priority_score` (`src/clients/usage_client.py`,
lines 40-75), with Python float arithmetic embedded as exact rational arithmetic.
`usage = none` models passing `None` (a `UsageSignals` object is always truthy). -/
def calculate_priority_score (asset : AssetMetadata) (usage : Option UsageSignals) : Rat :=
  let score : Rat := 0
  let score := match usage with
    | some u =>
        score + pyMin (u.popularity_score * 10) 30
          + pyMin ((u.query_frequency : Rat) / 100) 20
          + pyMin ((u.unique_users : Rat) * 2) 20
    | none => score + pyMin (asset.popularity_score * 10) 30
  let score := if pyTruthy asset.description then score + 10 else score
  let score := if pyTruthy asset.user_description then score + 5 else score
  let score :=
    if !asset.columns.isEmpty then
      let described_cols := (asset.columns.filter (fun c => pyTruthy c.description)).length
      score + pyMin (asset.columns.length : Rat) 10 + pyMin ((described_cols : Rat) * 2) 10
    else score
  let score := score + pyMin ((asset.tags.length : Rat) * 2) 10
  score + pyMin ((asset.classifications.length : Rat) * 3) 15

/-- One step of the stable descending insertion used to model Python's
`list.sort(key=lambda x: x[0], reverse=True)`: an element is placed before the first
already-placed element whose score is `≤` its own. Python's sort is stable, and with
`reverse=True` equal-keyed elements keep their original relative order, which is
exactly the behaviour of this insertion (an earlier element is inserted after all
later elements have been placed, and goes in front of equal scores). -/
def insertScoreDesc (x : Rat × AssetMetadata) :
    List (Rat × AssetMetadata) → List (Rat × AssetMetadata)
  | [] => [x]
  | y :: ys => if y.1 ≤ x.1 then x :: y :: ys else y :: insertScoreDesc x ys

/-- Stable sort by score descending (model of `scored_assets.sort(key=..., reverse=True)`
in `UsageSignalClient.prioritize_assets`). -/
def sortScoreDesc (l : List (Rat × AssetMetadata)) : List (Rat × AssetMetadata) :=
  l.foldr insertScoreDesc []

/-- `UsageSignalClient.fetch_usage_signals` (`src/clients/usage_client.py`, lines 18-38):
builds the per-qualified-name usage map from the assets' own counters. The Python dict
is modelled as an association list; qualified names are unique keys. -/
def fetch_usage_signals (assets : List AssetMetadata) : List (String × UsageSignals) :=
  assets.map fun a =>
    (a.qualified_name,
      { qualified_name := a.qualified_name
        query_frequency := a.query_count
        unique_users := a.user_count
        popularity_score := a.popularity_score })

/-- `UsageSignalClient.prioritize_assets` (`src/clients/usage_client.py`, lines 77-95):
score every asset (looking its usage up by qualified name), sort by score descending
(stable), truncate to `max_results`. -/
def prioritize_assets (assets : List AssetMetadata)
    (usage_signals : List (String × UsageSignals)) (max_results : Nat) :
    List AssetMetadata :=
  let scored_assets := assets.map fun a =>
    (calculate_priority_score a (usage_signals.lookup a.qualified_name), a)
  ((sortScoreDesc scored_assets).take max_results).map (·.2)

/-- Score of an asset as computed inside `prioritize_assets`. -/
def assetScore (usage_signals : List (String × UsageSignals)) (a : AssetMetadata) : Rat :=
  calculate_priority_score a (usage_signals.lookup a.qualified_name)

-- Sortedness of the stable insertion sort.

theorem head?_insertScoreDesc (x : Rat × AssetMetadata) (l : List (Rat × AssetMetadata)) :
    (insertScoreDesc x l).head? = some x ∨ (insertScoreDesc x l).head? = l.head? := by
  cases l with
  | nil => left; rfl
  | cons y ys =>
    by_cases hle : y.1 ≤ x.1
    · left; simp [insertScoreDesc, if_pos hle]
    · right; simp [insertScoreDesc, if_neg hle]

theorem chain_insertScoreDesc {x : Rat × AssetMetadata} {l : List (Rat × AssetMetadata)}
    (h : List.Chain' (fun a b => b.1 ≤ a.1) l) :
    List.Chain' (fun a b => b.1 ≤ a.1) (insertScoreDesc x l) := by
  induction l with
  | nil => simp [insertScoreDesc]
  | cons y ys ih =>
    by_cases hle : y.1 ≤ x.1
    · simp only [insertScoreDesc, if_pos hle]
      exact List.Chain'.cons hle h
    · simp only [insertScoreDesc, if_neg hle]
      have hys : List.Chain' (fun a b => b.1 ≤ a.1) ys := h.tail
      refine List.chain'_cons'.mpr ⟨?_, ih hys⟩
      intro z hz
      rcases head?_insertScoreDesc x ys with hh | hh
      · rw [hh] at hz
        cases hz
        exact le_of_lt (lt_of_not_le hle)
      · rw [hh] at hz
        exact (List.chain'_cons'.mp h).1 z hz

theorem chain_sortScoreDesc (l : List (Rat × AssetMetadata)) :
    List.Chain' (fun a b => b.1 ≤ a.1) (sortScoreDesc l) := by
  induction l with
  | nil => simp [sortScoreDesc]
  | cons x xs ih => exact chain_insertScoreDesc ih

theorem perm_insertScoreDesc (x : Rat × AssetMetadata) (l : List (Rat × AssetMetadata)) :
    List.Perm (insertScoreDesc x l) (x :: l) := by
  induction l with
  | nil => simp [insertScoreDesc]
  | cons y ys ih =>
    by_cases hle : y.1 ≤ x.1
    · simp [insertScoreDesc, if_pos hle]
    · simp only [insertScoreDesc, if_neg hle]
      exact (List.Perm.cons y ih).trans (List.Perm.swap x y ys)

theorem perm_sortScoreDesc (l : List (Rat × AssetMetadata)) :
    List.Perm (sortScoreDesc l) l := by
  induction l with
  | nil => simp [sortScoreDesc]
  | cons x xs ih =>
    exact (perm_insertScoreDesc x (sortScoreDesc xs)).trans (List.Perm.cons x ih)

-- Stability: elements of any fixed score stay in input order.

theorem filter_insertScoreDesc_ne (x : Rat × AssetMetadata) (l : List (Rat × AssetMetadata))
    (q : Rat) (hx : x.1 ≠ q) :
    (insertScoreDesc x l).filter (fun p => p.1 = q)
      = l.filter (fun p => p.1 = q) := by
  induction l with
  | nil => simp [insertScoreDesc, List.filter, hx]
  | cons y ys ih =>
    by_cases hle : y.1 ≤ x.1
    · simp [insertScoreDesc, if_pos hle, List.filter, hx]
    · simp only [insertScoreDesc, if_neg hle]
      by_cases hy : y.1 = q
      · simp [List.filter, hy, ih]
      · simp [List.filter, hy, ih]

theorem filter_insertScoreDesc_self (x : Rat × AssetMetadata)
    (l : List (Rat × AssetMetadata)) :
    (insertScoreDesc x l).filter (fun p => p.1 = x.1)
      = x :: l.filter (fun p => p.1 = x.1) := by
  induction l with
  | nil => simp [insertScoreDesc, List.filter]
  | cons y ys ih =>
    by_cases hle : y.1 ≤ x.1
    · simp [insertScoreDesc, if_pos hle, List.filter]
    · have hy : ¬ y.1 = x.1 := fun h => hle (le_of_eq h)
      simp [insertScoreDesc, if_neg hle, List.filter, hy, ih]

theorem filter_sortScoreDesc (l : List (Rat × AssetMetadata)) (q : Rat) :
    (sortScoreDesc l).filter (fun p => p.1 = q) = l.filter (fun p => p.1 = q) := by
  induction l with
  | nil => simp [sortScoreDesc]
  | cons x xs ih =>
    show (insertScoreDesc x (sortScoreDesc xs)).filter (fun p => p.1 = q)
        = (x :: xs).filter (fun p => p.1 = q)
    by_cases hx : x.1 = q
    · subst hx
      rw [filter_insertScoreDesc_self]
      simp [List.filter, ih]
    · rw [filter_insertScoreDesc_ne x _ q hx]
      simp [List.filter, hx, ih]

/-- The two assets of the spec's ranking example (§8 "Ranking"). -/
def exAssetLow : AssetMetadata :=
  { qualified_name := "low", name := "low", type_name := "Table"
    popularity_score := (1 : Rat) / 10 }

def exAssetHigh : AssetMetadata :=
  { qualified_name := "high", name := "high", type_name := "Table"
    description := some "x", popularity_score := (9 : Rat) / 10 }

/-- C7 — Ranking: `prioritize_assets` is the pure, deterministic function that
stable-sorts the scored assets by score descending (ties keep original input order)
and truncates to `max_results`. Conjuncts: (1) the output is the `max_results`-prefix
of a score-descending stable sort of the input; (2) that sort is a permutation of the
input (nothing added or dropped before truncation); (3) the scores along the output
are non-increasing; (4) stability — for every score value, the elements achieving it
appear in the same order as in the input; (5) the spec's concrete example: assets
`[low (pop 0.1), high (pop 0.9, description "x")]` with matching usage signals and
`max_results = 2` rank as `["high", "low"]`. Determinism is by construction: the
embedding is a pure function of its arguments, performing no I/O. -/
theorem ranking_stable_sort_truncate :
    (∀ (assets : List AssetMetadata) (usage_signals : List (String × UsageSignals))
        (max_results : Nat),
      prioritize_assets assets usage_signals max_results
        = ((sortScoreDesc (assets.map fun a => (assetScore usage_signals a, a))).take
            max_results).map (·.2)
      ∧ List.Perm (sortScoreDesc (assets.map fun a => (assetScore usage_signals a, a)))
          (assets.map fun a => (assetScore usage_signals a, a))
      ∧ List.Chain' (fun a b => b.1 ≤ a.1)
          (sortScoreDesc (assets.map fun a => (assetScore usage_signals a, a)))
      ∧ ∀ q : Rat,
          (sortScoreDesc (assets.map fun a => (assetScore usage_signals a, a))).filter
              (fun p => p.1 = q)
            = (assets.map fun a => (assetScore usage_signals a, a)).filter
              (fun p => p.1 = q))
    ∧ (prioritize_assets [exAssetLow, exAssetHigh]
          (fetch_usage_signals [exAssetLow, exAssetHigh]) 2).map (·.qualified_name)
        = ["high", "low"] := by
  constructor
  · intro assets usage_signals max_results
    refine ⟨rfl, perm_sortScoreDesc _, chain_sortScoreDesc _, fun q => filter_sortScoreDesc _ q⟩
  · have husage : fetch_usage_signals [exAssetLow, exAssetHigh]
        = [("low", { qualified_name := "low", popularity_score := (1 : Rat) / 10 }),
           ("high", { qualified_name := "high", popularity_score := (9 : Rat) / 10 })] := rfl
    have hlookL : (fetch_usage_signals [exAssetLow, exAssetHigh]).lookup "low"
        = some { qualified_name := "low", popularity_score := (1 : Rat) / 10 } := rfl
    have hlookH : (fetch_usage_signals [exAssetLow, exAssetHigh]).lookup "high"
        = some { qualified_name := "high", popularity_score := (9 : Rat) / 10 } := rfl
    have hx : "x".isEmpty = false := rfl
    have hsL : calculate_priority_score exAssetLow
        (some { qualified_name := "low", popularity_score := (1 : Rat) / 10 }) = 1 := by
      norm_num [calculate_priority_score, pyMin, pyTruthy, exAssetLow]
    have hsH : calculate_priority_score exAssetHigh
        (some { qualified_name := "high", popularity_score := (9 : Rat) / 10 }) = 19 := by
      norm_num [calculate_priority_score, pyMin, pyTruthy, exAssetHigh, hx]
    have hscored : ([exAssetLow, exAssetHigh].map fun a =>
        (calculate_priority_score a
          ((fetch_usage_signals [exAssetLow, exAssetHigh]).lookup a.qualified_name), a))
        = [((1 : Rat), exAssetLow), ((19 : Rat), exAssetHigh)] := by
      simp only [List.map]
      rw [show exAssetLow.qualified_name = "low" from rfl,
        show exAssetHigh.qualified_name = "high" from rfl, hlookL, hlookH, hsL, hsH]
    have hsorted : sortScoreDesc [((1 : Rat), exAssetLow), ((19 : Rat), exAssetHigh)]
        = [((19 : Rat), exAssetHigh), ((1 : Rat), exAssetLow)] := by
      norm_num [sortScoreDesc, insertScoreDesc, List.foldr]
    simp only [prioritize_assets]
    rw [hscored, hsorted]
    rfl

/-! ## TermGenerator (`src/generators/term_generator.py`) -/

/-- The parsed JSON object returned by a successful
`llm_client.generate_term_definition` call; `generate_term` reads its fields with
`result.get(...)`, so every field is optional. `examples`/`synonyms` default to `[]`. -/
structure LLMTermResult where
  name : Option String := none
  definition : Option String := none
  short_description : Option String := none
  examples : List String := []
  synonyms : List String := []
  confidence : Option String := none
deriving DecidableEq, Repr

/-- An LLM oracle: the outcome of `generate_term_definition` for a given asset.
`.error` stands for any exception raised inside `generate_term`'s `try` block
(network failure, JSON parse failure, ...). -/
abbrev LLMOracle := AssetMetadata → Except String LLMTermResult

/-- The legal pydantic values of `confidence: Literal["high", "medium", "low"]`. -/
def pyConfidences : List String := ["high", "medium", "low"]

/-- `TermGenerator.generate_term` (`src/generators/term_generator.py`, lines 32-80):
build + truncate context, call the LLM, construct the draft; every exception is caught
and `None` returned. Context building is total, so the per-asset failure cases are the
oracle's `.error` and pydantic validation of the constructed draft — of the constructed
fields only `confidence` can fail the model's `Literal` validation. The fresh
`str(uuid4())` id is supplied by the injected `uuid` function. -/
def generate_term (llm : LLMOracle) (uuid : AssetMetadata → String)
    (asset : AssetMetadata) (usage : Option UsageSignals)
    (target_glossary_qn : String) : Option GlossaryTermDraft :=
  match llm asset with
  | .error _ => none
  | .ok result =>
    let confidence := result.confidence.getD "medium"
    if pyConfidences.contains confidence then
      some
        { id := uuid asset
          name := result.name.getD asset.name
          definition := result.definition.getD ""
          short_description := result.short_description
          examples := result.examples
          synonyms := result.synonyms
          source_assets := [asset.qualified_name]
          confidence := confidence
          status := TermStatus.PENDING_REVIEW
          term_type := TermType.business_term
          target_glossary_qn := target_glossary_qn
          query_frequency :=
            match usage with | some u => u.query_frequency | none => asset.query_count
          user_access_count :=
            match usage with | some u => u.unique_users | none => asset.user_count }
    else none

/-- `TermGenerator.generate_terms_batch` (lines 82-106): one `generate_term` task per
asset, gathered in task order; `None` results (caught failures) are dropped, so the
output keeps exactly the successful drafts in asset order and no exception escapes. -/
def generate_terms_batch (llm : LLMOracle) (uuid : AssetMetadata → String)
    (assets : List AssetMetadata) (usage_signals : List (String × UsageSignals))
    (target_glossary_qn : String) : List GlossaryTermDraft :=
  (assets.map fun a =>
    generate_term llm uuid a (usage_signals.lookup a.qualified_name) target_glossary_qn
  ).filterMap id

/-- The pre-generation dedup test of `generate_all_terms` (line 131): an asset is kept
for generation exactly when its lowercased display name is not among the lowercased
existing glossary term names. Python's `str.lower()` on the ASCII-ish names involved is
`String.lower`. -/
def pregen_keep (existing_lower : List String) (a : AssetMetadata) : Bool :=
  !existing_lower.contains a.name.lower

/-- Result of a `generate_all_terms` run, with the generator call trace made explicit:
`generator_calls` lists, in order, the assets for which `generate_term` (and hence the
text generator) was invoked. -/
structure GenRunResult where
  all_drafts : List GlossaryTermDraft
  generator_calls : List AssetMetadata
  skipped_existing : Nat
  skipped_duplicate : Nat
deriving DecidableEq, Repr

/-- The batching of `for i in range(0, len(assets), self.batch_size)` /
`assets[i : i + self.batch_size]`. `batch_size = 0` (which would raise in Python's
`range`) is mapped to a single batch so the function is total; every caller uses
`batch_size = 5`. -/
def chunksGo (batch_size : Nat) : Nat → List α → List (List α)
  | _, [] => []
  | 0, l => [l]
  | fuel + 1, x :: xs =>
    match batch_size with
    | 0 => [x :: xs]
    | bs + 1 => (x :: xs).take (bs + 1) :: chunksGo batch_size fuel ((x :: xs).drop (bs + 1))

/-- `chunks batch_size l` slices `l` into consecutive batches. Structural recursion on
a fuel argument initialised to `l.length` (each step consumes at least one element, so
the fuel is never exhausted); this keeps the definition kernel-reducible. -/
def chunks (batch_size : Nat) (l : List α) : List (List α) :=
  chunksGo batch_size l.length l

/-- The within-batch dedup loop of `generate_all_terms` (lines 146-154). State:
`generated_names` (lowercased names accepted so far, a Python `set` modelled as the
append-ordered list of additions), the accepted drafts, and the duplicate-skip counter. -/
def within_run_dedup (existing_lower : List String) :
    List GlossaryTermDraft → List String → List GlossaryTermDraft → Nat →
    List String × List GlossaryTermDraft × Nat
  | [], generated_names, all_drafts, skipped => (generated_names, all_drafts, skipped)
  | d :: ds, generated_names, all_drafts, skipped =>
    let name_lower := d.name.lower
    if existing_lower.contains name_lower || generated_names.contains name_lower then
      within_run_dedup existing_lower ds generated_names all_drafts (skipped + 1)
    else
      within_run_dedup existing_lower ds (generated_names ++ [name_lower])
        (all_drafts ++ [d]) skipped

/-- The batch loop of `generate_all_terms` (lines 125-158): per batch, pre-generation
filter (counting skips), concurrent generation of the filtered batch, then the
within-batch dedup fold. The 1-second inter-batch `asyncio.sleep` does not affect the
result and is not part of the state. -/
def generate_all_terms_go (llm : LLMOracle) (uuid : AssetMetadata → String)
    (usage_signals : List (String × UsageSignals)) (target_glossary_qn : String)
    (existing_lower : List String) :
    List (List AssetMetadata) → List String → List GlossaryTermDraft →
    List AssetMetadata → Nat → Nat → GenRunResult
  | [], _, all_drafts, calls, skipped_existing, skipped_duplicate =>
    { all_drafts := all_drafts, generator_calls := calls
      skipped_existing := skipped_existing, skipped_duplicate := skipped_duplicate }
  | batch :: rest, generated_names, all_drafts, calls, skipped_existing, skipped_duplicate =>
    let filtered_batch := batch.filter (pregen_keep existing_lower)
    let skipped_existing := skipped_existing + (batch.length - filtered_batch.length)
    let batch_drafts :=
      generate_terms_batch llm uuid filtered_batch usage_signals target_glossary_qn
    let st := within_run_dedup existing_lower batch_drafts generated_names all_drafts
      skipped_duplicate
    generate_all_terms_go llm uuid usage_signals target_glossary_qn existing_lower rest
      st.1 st.2.1 (calls ++ filtered_batch) skipped_existing st.2.2

/-- `TermGenerator.generate_all_terms` (lines 108-165). `existing_term_names` is the
Python `set` argument, modelled as a list consulted only through membership. -/
def generate_all_terms (llm : LLMOracle) (uuid : AssetMetadata → String)
    (assets : List AssetMetadata) (usage_signals : List (String × UsageSignals))
    (target_glossary_qn : String) (existing_term_names : List String)
    (batch_size : Nat := 5) : GenRunResult :=
  generate_all_terms_go llm uuid usage_signals target_glossary_qn
    (existing_term_names.map String.lower) (chunks batch_size assets) [] [] [] 0 0

/-- Specification-level first-occurrence filter: keep a draft when its lowercased name
is neither in `existing_lower` nor the name of an earlier kept draft. `generate_all_terms`
retains exactly these drafts out of the stream of generated drafts. -/
def retainFirst (existing_lower : List String) (seen : List String) :
    List GlossaryTermDraft → List GlossaryTermDraft
  | [] => []
  | d :: ds =>
    let q := d.name.lower
    if existing_lower.contains q || seen.contains q then
      retainFirst existing_lower seen ds
    else
      d :: retainFirst existing_lower (seen ++ [q]) ds

/-- The stream of drafts produced by the generator across the run, in per-draft
processing order (batch by batch, asset order within a batch). -/
def producedDrafts (llm : LLMOracle) (uuid : AssetMetadata → String)
    (assets : List AssetMetadata) (usage_signals : List (String × UsageSignals))
    (target_glossary_qn : String) (existing_term_names : List String)
    (batch_size : Nat) : List GlossaryTermDraft :=
  ((chunks batch_size assets).map fun batch =>
    generate_terms_batch llm uuid
      (batch.filter (pregen_keep (existing_term_names.map String.lower)))
      usage_signals target_glossary_qn).flatten

theorem chunksGo_flatten (bs : Nat) :
    ∀ (fuel : Nat) (l : List α), l.length ≤ fuel → (chunksGo bs fuel l).flatten = l := by
  intro fuel
  induction fuel with
  | zero =>
    intro l hl
    cases l with
    | nil => rfl
    | cons x xs => simp at hl
  | succ fuel ih =>
    intro l hl
    cases l with
    | nil => rfl
    | cons x xs =>
      cases bs with
      | zero => simp [chunksGo]
      | succ bs' =>
        have hdrop : ((x :: xs).drop (bs' + 1)).length ≤ fuel := by
          simp only [List.length_drop, List.length_cons]
          simp only [List.length_cons] at hl
          omega
        simp only [chunksGo, List.flatten_cons, ih _ hdrop, List.take_append_drop]

theorem chunks_flatten (bs : Nat) (l : List α) : (chunks bs l).flatten = l :=
  chunksGo_flatten bs l.length l le_rfl

theorem retainFirst_length_le (ex : List String) :
    ∀ (l : List GlossaryTermDraft) (seen : List String),
      (retainFirst ex seen l).length ≤ l.length := by
  intro l
  induction l with
  | nil => intro seen; simp [retainFirst]
  | cons d ds ih =>
    intro seen
    by_cases h : (ex.contains d.name.lower || seen.contains d.name.lower) = true
    · simp only [retainFirst, h, if_true]
      exact le_trans (ih seen) (Nat.le_succ _)
    · simp only [retainFirst, h, if_false, List.length_cons]
      exact Nat.succ_le_succ (ih _)

theorem within_run_dedup_spec (ex : List String) :
    ∀ (ds : List GlossaryTermDraft) (gen : List String) (acc : List GlossaryTermDraft)
      (sd : Nat),
      within_run_dedup ex ds gen acc sd
        = (gen ++ (retainFirst ex gen ds).map (fun d => d.name.lower),
           acc ++ retainFirst ex gen ds,
           sd + (ds.length - (retainFirst ex gen ds).length)) := by
  intro ds
  induction ds with
  | nil => intro gen acc sd; simp [within_run_dedup, retainFirst]
  | cons d ds ih =>
    intro gen acc sd
    cases h : (ex.contains d.name.lower || gen.contains d.name.lower) with
    | true =>
      have hlen := retainFirst_length_le ex ds gen
      simp only [within_run_dedup, retainFirst, h, if_true, ih, List.length_cons,
        Prod.mk.injEq]
      refine ⟨by simp, by simp, by omega⟩
    | false =>
      have hlen := retainFirst_length_le ex ds (gen ++ [d.name.lower])
      simp only [within_run_dedup, retainFirst, h, Bool.false_eq_true, if_false, ih,
        List.length_cons, List.map_cons, Prod.mk.injEq]
      refine ⟨by simp [List.append_assoc], by simp [List.append_assoc], by omega⟩

theorem retainFirst_append (ex : List String) :
    ∀ (l₁ l₂ : List GlossaryTermDraft) (seen : List String),
      retainFirst ex seen (l₁ ++ l₂)
        = retainFirst ex seen l₁
          ++ retainFirst ex (seen ++ (retainFirst ex seen l₁).map (fun d => d.name.lower)) l₂ := by
  intro l₁
  induction l₁ with
  | nil => intro l₂ seen; simp [retainFirst]
  | cons d ds ih =>
    intro l₂ seen
    cases h : (ex.contains d.name.lower || seen.contains d.name.lower) with
    | true =>
      simp only [List.cons_append, retainFirst, h, if_true]
      exact ih l₂ seen
    | false =>
      simp only [List.cons_append, retainFirst, h, Bool.false_eq_true, if_false,
        List.map_cons, List.cons_append, List.append_eq, ih]
      simp [List.append_assoc]

theorem generate_all_terms_go_spec (llm : LLMOracle) (uuid : AssetMetadata → String)
    (usage_signals : List (String × UsageSignals)) (tgq : String) (ex : List String) :
    ∀ (batches : List (List AssetMetadata)) (gen : List String)
      (acc : List GlossaryTermDraft) (calls : List AssetMetadata) (se sd : Nat),
      generate_all_terms_go llm uuid usage_signals tgq ex batches gen acc calls se sd
        = { all_drafts := acc ++ retainFirst ex gen
              ((batches.map fun b =>
                generate_terms_batch llm uuid (b.filter (pregen_keep ex))
                  usage_signals tgq).flatten)
            generator_calls := calls ++ batches.flatten.filter (pregen_keep ex)
            skipped_existing := se + (batches.flatten.length
              - (batches.flatten.filter (pregen_keep ex)).length)
            skipped_duplicate := sd +
              (((batches.map fun b =>
                  generate_terms_batch llm uuid (b.filter (pregen_keep ex))
                    usage_signals tgq).flatten).length
                - (retainFirst ex gen
                    ((batches.map fun b =>
                      generate_terms_batch llm uuid (b.filter (pregen_keep ex))
                        usage_signals tgq).flatten)).length) } := by
  intro batches
  induction batches with
  | nil =>
    intro gen acc calls se sd
    simp [generate_all_terms_go, retainFirst]
  | cons b rest ih =>
    intro gen acc calls se sd
    have hb := within_run_dedup_spec ex
      (generate_terms_batch llm uuid (b.filter (pregen_keep ex)) usage_signals tgq)
      gen acc sd
    simp only [generate_all_terms_go, hb, ih, List.map_cons, List.flatten_cons,
      List.filter_append, List.length_append, GenRunResult.mk.injEq]
    have happ := retainFirst_append ex
      (generate_terms_batch llm uuid (b.filter (pregen_keep ex)) usage_signals tgq)
      ((rest.map fun b' =>
        generate_terms_batch llm uuid (b'.filter (pregen_keep ex)) usage_signals tgq).flatten)
      gen
    refine ⟨?_, ?_, ?_, ?_⟩
    · rw [happ, List.append_assoc]
    · rw [List.append_assoc]
    · have h1 := List.length_filter_le (pregen_keep ex) b
      have h2 := List.length_filter_le (pregen_keep ex) rest.flatten
      omega
    · rw [happ]
      have h3 := retainFirst_length_le ex
        (generate_terms_batch llm uuid (b.filter (pregen_keep ex)) usage_signals tgq) gen
      have h4 := retainFirst_length_le ex
        ((rest.map fun b' =>
          generate_terms_batch llm uuid (b'.filter (pregen_keep ex)) usage_signals tgq).flatten)
        (gen ++ (retainFirst ex gen
          (generate_terms_batch llm uuid (b.filter (pregen_keep ex)) usage_signals tgq)).map
            (fun d => d.name.lower))
      simp only [List.length_append]
      omega

/-- Master characterization of `generate_all_terms`: the drafts are the
first-occurrence filter of the produced stream, the generator is called exactly on the
assets that survive the pre-generation filter (in input order), and the two skip
counters count the filtered assets resp. the discarded drafts. -/
theorem generate_all_terms_eq (llm : LLMOracle) (uuid : AssetMetadata → String)
    (assets : List AssetMetadata) (usage_signals : List (String × UsageSignals))
    (tgq : String) (existing_term_names : List String) (bs : Nat) :
    generate_all_terms llm uuid assets usage_signals tgq existing_term_names bs
      = { all_drafts := retainFirst (existing_term_names.map String.lower) []
            (producedDrafts llm uuid assets usage_signals tgq existing_term_names bs)
          generator_calls :=
            assets.filter (pregen_keep (existing_term_names.map String.lower))
          skipped_existing := assets.length
            - (assets.filter (pregen_keep (existing_term_names.map String.lower))).length
          skipped_duplicate :=
            (producedDrafts llm uuid assets usage_signals tgq existing_term_names bs).length
            - (retainFirst (existing_term_names.map String.lower) []
                (producedDrafts llm uuid assets usage_signals tgq existing_term_names bs)).length } := by
  unfold generate_all_terms producedDrafts
  rw [generate_all_terms_go_spec]
  simp [chunks_flatten]

theorem contains_false_iff (l : List String) (a : String) :
    l.contains a = false ↔ a ∉ l := by
  simp [List.contains, List.elem_eq_mem]

theorem contains_true_iff (l : List String) (a : String) :
    l.contains a = true ↔ a ∈ l := by
  simp [List.contains, List.elem_eq_mem]

theorem retainFirst_mem_not_seen (ex : List String) :
    ∀ (l : List GlossaryTermDraft) (seen : List String) (d : GlossaryTermDraft),
      d ∈ retainFirst ex seen l →
        d.name.lower ∉ ex ∧ d.name.lower ∉ seen := by
  intro l
  induction l with
  | nil => intro seen d hd; simp [retainFirst] at hd
  | cons c cs ih =>
    intro seen d hd
    cases h : (ex.contains c.name.lower || seen.contains c.name.lower) with
    | true =>
      rw [retainFirst] at hd
      simp only [h, if_true] at hd
      exact ih seen d hd
    | false =>
      rw [retainFirst] at hd
      simp only [h, Bool.false_eq_true, if_false, List.mem_cons] at hd
      rcases hd with rfl | hd
      · rcases Bool.or_eq_false_iff.mp h with ⟨h1, h2⟩
        exact ⟨(contains_false_iff _ _).mp h1, (contains_false_iff _ _).mp h2⟩
      · have hmem := ih (seen ++ [c.name.lower]) d hd
        refine ⟨hmem.1, fun hin => hmem.2 ?_⟩
        exact List.mem_append.mpr (Or.inl hin)

theorem retainFirst_pairwise (ex : List String) :
    ∀ (l : List GlossaryTermDraft) (seen : List String),
      List.Pairwise (fun d1 d2 => d1.name.lower ≠ d2.name.lower)
        (retainFirst ex seen l) := by
  intro l
  induction l with
  | nil => intro seen; simp [retainFirst]
  | cons c cs ih =>
    intro seen
    cases h : (ex.contains c.name.lower || seen.contains c.name.lower) with
    | true =>
      rw [retainFirst]
      simp only [h, if_true]
      exact ih seen
    | false =>
      rw [retainFirst]
      simp only [h, Bool.false_eq_true, if_false]
      refine List.Pairwise.cons ?_ (ih _)
      intro d hd
      have hmem := (retainFirst_mem_not_seen ex cs (seen ++ [c.name.lower]) d hd).2
      intro heq
      exact hmem (List.mem_append.mpr (Or.inr (by simp [heq])))

theorem retainFirst_sublist (ex : List String) :
    ∀ (l : List GlossaryTermDraft) (seen : List String),
      (retainFirst ex seen l).Sublist l := by
  intro l
  induction l with
  | nil => intro seen; simp [retainFirst]
  | cons c cs ih =>
    intro seen
    cases h : (ex.contains c.name.lower || seen.contains c.name.lower) with
    | true =>
      rw [retainFirst]
      simp only [h, if_true]
      exact (ih seen).cons c
    | false =>
      rw [retainFirst]
      simp only [h, Bool.false_eq_true, if_false]
      exact (ih _).cons₂ c

theorem retainFirst_find? (ex : List String) (q : String) :
    ∀ (l : List GlossaryTermDraft) (seen : List String),
      q ∉ ex → q ∉ seen →
      (retainFirst ex seen l).find? (fun d => d.name.lower == q)
        = l.find? (fun d => d.name.lower == q) := by
  intro l
  induction l with
  | nil => intro seen _ _; simp [retainFirst]
  | cons c cs ih =>
    intro seen hex hseen
    cases hcq : (c.name.lower == q) with
    | true =>
      have hcq' : c.name.lower = q := by simpa using hcq
      have hcond : (ex.contains c.name.lower || seen.contains c.name.lower) = false := by
        rw [hcq', (contains_false_iff ex q).mpr hex, (contains_false_iff seen q).mpr hseen]
        rfl
      rw [retainFirst]
      simp only [hcond, Bool.false_eq_true, if_false, List.find?_cons, hcq]
    | false =>
      rw [List.find?_cons, hcq]
      cases hcond : (ex.contains c.name.lower || seen.contains c.name.lower) with
      | true =>
        rw [retainFirst]
        simp only [hcond, if_true]
        exact ih seen hex hseen
      | false =>
        rw [retainFirst]
        simp only [hcond, Bool.false_eq_true, if_false, List.find?_cons, hcq]
        refine ih (seen ++ [c.name.lower]) hex ?_
        intro hin
        rcases List.mem_append.mp hin with hin | hin
        · exact hseen hin
        · have : q = c.name.lower := by simpa using hin
          rw [this] at hcq
          simp at hcq

theorem filter_length_le_one_of_pairwise {l : List GlossaryTermDraft}
    (hp : List.Pairwise (fun d1 d2 => d1.name.lower ≠ d2.name.lower) l) (q : String) :
    (l.filter (fun d => d.name.lower == q)).length ≤ 1 := by
  induction l with
  | nil => simp
  | cons c cs ih =>
    cases hc : (c.name.lower == q) with
    | true =>
      have hcq : c.name.lower = q := by simpa using hc
      have hnone : cs.filter (fun d => d.name.lower == q) = [] := by
        rw [List.filter_eq_nil_iff]
        intro d hd
        have hne := (List.pairwise_cons.mp hp).1 d hd
        rw [hcq] at hne
        simp [Ne.symm hne]
      rw [List.filter_cons, hc, hnone]
      simp
    | false =>
      rw [List.filter_cons, hc]
      simp only [Bool.false_eq_true, if_false]
      exact ih (List.pairwise_cons.mp hp).2

theorem generate_term_some {llm : LLMOracle} {uuid : AssetMetadata → String}
    {a : AssetMetadata} {u : Option UsageSignals} {tgq : String} {d : GlossaryTermDraft}
    (h : generate_term llm uuid a u tgq = some d) :
    d.status = TermStatus.PENDING_REVIEW ∧ d.source_assets = [a.qualified_name] := by
  unfold generate_term at h
  cases hllm : llm a with
  | error e => rw [hllm] at h; simp at h
  | ok result =>
    rw [hllm] at h
    simp only at h
    by_cases hc : pyConfidences.contains (result.confidence.getD "medium") = true
    · rw [if_pos hc] at h
      cases h
      exact ⟨rfl, rfl⟩
    · rw [if_neg hc] at h
      simp at h

theorem mem_generate_terms_batch {llm : LLMOracle} {uuid : AssetMetadata → String}
    {assets : List AssetMetadata} {us : List (String × UsageSignals)} {tgq : String}
    {d : GlossaryTermDraft}
    (h : d ∈ generate_terms_batch llm uuid assets us tgq) :
    ∃ a ∈ assets, generate_term llm uuid a (us.lookup a.qualified_name) tgq = some d := by
  unfold generate_terms_batch at h
  rw [List.mem_filterMap] at h
  rcases h with ⟨o, ho, hod⟩
  rw [List.mem_map] at ho
  rcases ho with ⟨a, ha, rfl⟩
  exact ⟨a, ha, hod⟩

theorem mem_producedDrafts {llm : LLMOracle} {uuid : AssetMetadata → String}
    {assets : List AssetMetadata} {us : List (String × UsageSignals)} {tgq : String}
    {existing : List String} {bs : Nat} {d : GlossaryTermDraft}
    (h : d ∈ producedDrafts llm uuid assets us tgq existing bs) :
    ∃ a ∈ assets.filter (pregen_keep (existing.map String.lower)),
      generate_term llm uuid a (us.lookup a.qualified_name) tgq = some d := by
  unfold producedDrafts at h
  rw [List.mem_flatten] at h
  rcases h with ⟨bd, hbd, hdbd⟩
  rw [List.mem_map] at hbd
  rcases hbd with ⟨batch, hbatch, rfl⟩
  rcases mem_generate_terms_batch hdbd with ⟨a, ha, hgen⟩
  rw [List.mem_filter] at ha
  refine ⟨a, ?_, hgen⟩
  rw [List.mem_filter]
  refine ⟨?_, ha.2⟩
  rw [← chunks_flatten bs assets]
  exact List.mem_flatten.mpr ⟨batch, hbatch, ha.1⟩

theorem length_filterMap_eq_length_filter (f : α → Option β) (l : List α) :
    (l.filterMap f).length = (l.filter (fun a => (f a).isSome)).length := by
  induction l with
  | nil => rfl
  | cons x xs ih =>
    cases hx : f x with
    | none => simp [List.filterMap_cons, List.filter_cons, hx, ih]
    | some b => simp [List.filterMap_cons, List.filter_cons, hx, ih]

theorem length_sub_length_filter (p : α → Bool) (l : List α) :
    l.length - (l.filter p).length = (l.filter (fun x => !(p x))).length := by
  induction l with
  | nil => rfl
  | cons x xs ih =>
    have hle := List.length_filter_le p xs
    cases hx : p x with
    | true => simp [List.filter_cons, hx, ih]
    | false =>
      simp only [List.filter_cons, hx, Bool.false_eq_true, if_false, Bool.not_false,
        if_true, List.length_cons]
      omega

/-! ## Claim theorems for term generation -/

/-- A generator oracle that always succeeds, returning the fixed name
"Generated Name". -/
def llmFixedName : LLMOracle := fun _ => Except.ok { name := some "Generated Name" }

/-- A trivial id supply (`str(uuid4())` stands outside the verified logic). -/
def uuidConst : AssetMetadata → String := fun _ => "id-1"

/-- The asset of the C1 counterexample: its display name carries a trailing blank. -/
def assetTrailingBlank : AssetMetadata :=
  { qualified_name := "db.sch.customer", name := "customer ", type_name := "Table" }

/-- C1 — counterexample. The claim states that the pre-generation comparison is
case-insensitive AND trimmed. The code (`term_generator.py` lines 118, 131) only
lowercases — it never strips whitespace. For the existing-names set `{"customer"}` and
an asset displayed as `"customer "` (trailing blank), the trimmed lowercased names
match, so under the claim the generator must not be called for the asset, it must
contribute no draft, and the pre-generation skip counter must be incremented; the code
calls the generator once, produces a draft, and leaves the counter at zero. -/
theorem pregen_dedup_no_trim_counterexample :
    "customer ".strip.lower = "customer".strip.lower
    ∧ (generate_all_terms llmFixedName uuidConst [assetTrailingBlank] [] "g"
        ["customer"] 5).generator_calls = [assetTrailingBlank]
    ∧ (generate_all_terms llmFixedName uuidConst [assetTrailingBlank] [] "g"
        ["customer"] 5).skipped_existing = 0
    ∧ (generate_all_terms llmFixedName uuidConst [assetTrailingBlank] [] "g"
        ["customer"] 5).all_drafts.length = 1 := by
  refine ⟨rfl, ?_, ?_, ?_⟩ <;> decide

/-- C1 (amended) — Pre-generation dedup, comparison case-insensitive but NOT trimmed:
in every run, the generator is invoked exactly on the assets whose lowercased display
name is not among the lowercased existing term names (in input order); every asset
whose lowercased name matches an existing name is never passed to the generator; the
pre-generation skip counter counts exactly the matching assets; and every returned
draft originates from a generator call on some non-skipped asset. -/
theorem pregen_dedup_amended (llm : LLMOracle) (uuid : AssetMetadata → String)
    (assets : List AssetMetadata) (us : List (String × UsageSignals)) (tgq : String)
    (existing : List String) (bs : Nat) :
    (generate_all_terms llm uuid assets us tgq existing bs).generator_calls
      = assets.filter (pregen_keep (existing.map String.lower))
    ∧ (generate_all_terms llm uuid assets us tgq existing bs).skipped_existing
      = (assets.filter
          (fun a => (existing.map String.lower).contains a.name.lower)).length
    ∧ (∀ a ∈ assets, a.name.lower ∈ existing.map String.lower →
        a ∉ (generate_all_terms llm uuid assets us tgq existing bs).generator_calls)
    ∧ (∀ d ∈ (generate_all_terms llm uuid assets us tgq existing bs).all_drafts,
        ∃ a ∈ (generate_all_terms llm uuid assets us tgq existing bs).generator_calls,
          generate_term llm uuid a (us.lookup a.qualified_name) tgq = some d) := by
  rw [generate_all_terms_eq]
  refine ⟨rfl, ?_, ?_, ?_⟩
  · show assets.length - _ = _
    rw [length_sub_length_filter]
    congr 1
    apply List.filter_congr
    intro a _
    simp [pregen_keep]
  · intro a _ hmem hcall
    rw [List.mem_filter] at hcall
    have := hcall.2
    rw [pregen_keep] at this
    rw [(contains_true_iff _ _).mpr hmem] at this
    simp at this
  · intro d hd
    have hdp : d ∈ producedDrafts llm uuid assets us tgq existing bs :=
      (retainFirst_sublist _ _ _).subset hd
    rcases mem_producedDrafts hdp with ⟨a, ha, hgen⟩
    exact ⟨a, ha, hgen⟩

/-- Witness for C1 (amended), at the spec's own example: existing names `{"customer"}`
and an asset displayed `"Customer"` — the asset is never passed to the generator. -/
def assetCustomer : AssetMetadata :=
  { qualified_name := "db.sch.cust", name := "Customer", type_name := "Table" }

theorem pregen_dedup_amended_witness :
    assetCustomer ∉ (generate_all_terms llmFixedName uuidConst [assetCustomer] []
      "g" ["customer"] 5).generator_calls :=
  (pregen_dedup_amended llmFixedName uuidConst [assetCustomer] [] "g" ["customer"] 5).2.2.1
    assetCustomer (by decide) (by decide)

/-- C2 — Within-run dedup: among the drafts produced by the generator over a run
(`producedDrafts`, in per-draft processing order), for any lowercased name `q`:
(1) at most one draft with that name survives into the output; (2) when `q` does not
collide with the existing-names set, the surviving draft is exactly the first produced
draft with that name (`find?` agreement — so when two distinct assets both produce
name "Revenue", exactly the earlier-processed draft is retained); and (3) the
within-run skip counter equals the total number of discarded drafts. -/
theorem within_run_dedup_retention (llm : LLMOracle) (uuid : AssetMetadata → String)
    (assets : List AssetMetadata) (us : List (String × UsageSignals)) (tgq : String)
    (existing : List String) (bs : Nat) :
    (∀ q : String,
      ((generate_all_terms llm uuid assets us tgq existing bs).all_drafts.filter
        (fun d => d.name.lower == q)).length ≤ 1)
    ∧ (∀ q : String, q ∉ existing.map String.lower →
        (generate_all_terms llm uuid assets us tgq existing bs).all_drafts.find?
            (fun d => d.name.lower == q)
          = (producedDrafts llm uuid assets us tgq existing bs).find?
            (fun d => d.name.lower == q))
    ∧ (generate_all_terms llm uuid assets us tgq existing bs).skipped_duplicate
      = (producedDrafts llm uuid assets us tgq existing bs).length
        - (generate_all_terms llm uuid assets us tgq existing bs).all_drafts.length := by
  rw [generate_all_terms_eq]
  refine ⟨?_, ?_, rfl⟩
  · intro q
    exact filter_length_le_one_of_pairwise (retainFirst_pairwise _ _ _) q
  · intro q hq
    exact retainFirst_find? _ q _ [] hq (by simp)

/-- The two-asset "Revenue" scenario of the spec: distinct assets whose generated
names differ only in case. -/
def assetRev1 : AssetMetadata :=
  { qualified_name := "db.sch.rev1", name := "rev_table_1", type_name := "Table" }

def assetRev2 : AssetMetadata :=
  { qualified_name := "db.sch.rev2", name := "rev_table_2", type_name := "Table" }

def llmRevenue : LLMOracle := fun a =>
  Except.ok { name := some (if a.qualified_name == "db.sch.rev1" then "Revenue" else "revenue") }

theorem within_run_dedup_retention_witness :
    (generate_all_terms llmRevenue uuidConst [assetRev1, assetRev2] [] "g" [] 5).all_drafts.find?
        (fun d => d.name.lower == "revenue")
      = (producedDrafts llmRevenue uuidConst [assetRev1, assetRev2] [] "g" [] 5).find?
        (fun d => d.name.lower == "revenue") :=
  (within_run_dedup_retention llmRevenue uuidConst [assetRev1, assetRev2] [] "g" [] 5).2.1
    "revenue" (by decide)

/-- The five assets of the partial-failure scenario; the oracle fails on `a3` only. -/
def exAssetsFive : List AssetMetadata :=
  [{ qualified_name := "a1", name := "a1", type_name := "Table" },
   { qualified_name := "a2", name := "a2", type_name := "Table" },
   { qualified_name := "a3", name := "a3", type_name := "Table" },
   { qualified_name := "a4", name := "a4", type_name := "Table" },
   { qualified_name := "a5", name := "a5", type_name := "Table" }]

def llmFailA3 : LLMOracle := fun a =>
  if a.qualified_name == "a3" then Except.error "network error" else Except.ok {}

/-- C5 — Partial failure isolation: batch generation is the total function
returning exactly the drafts of the assets whose generator call succeeded, in order —
per-asset failures are swallowed (`generate_term` returns `None`, dropped from the
gather results), never propagated. Conjuncts: (1) the batch output is the
`filterMap` of per-asset generation over the batch; (2) its length equals the number
of assets whose generation succeeded; (3) the spec's concrete case — the generator
raising for exactly one asset of five yields exactly four drafts; and (4) the run
continues past a failing batch: with batch size 2 the same five assets still yield a
draft for `a5` from the final batch. -/
theorem batch_failure_isolation (llm : LLMOracle) (uuid : AssetMetadata → String)
    (assets : List AssetMetadata) (us : List (String × UsageSignals)) (tgq : String) :
    (generate_terms_batch llm uuid assets us tgq
      = assets.filterMap
          (fun a => generate_term llm uuid a (us.lookup a.qualified_name) tgq))
    ∧ (generate_terms_batch llm uuid assets us tgq).length
      = (assets.filter
          (fun a => (generate_term llm uuid a (us.lookup a.qualified_name) tgq).isSome)).length
    ∧ (generate_terms_batch llmFailA3 uuidConst exAssetsFive [] "g").length = 4
    ∧ ((generate_all_terms llmFailA3 uuidConst exAssetsFive [] "g" [] 2).all_drafts.map
        (fun d => d.name)).contains "a5" = true := by
  refine ⟨?_, ?_, by decide, by decide⟩
  · unfold generate_terms_batch
    rw [List.filterMap_map]
    rfl
  · unfold generate_terms_batch
    rw [List.filterMap_map]
    exact length_filterMap_eq_length_filter _ assets

/-- C10 — output invariant of a full generation run: the returned drafts have pairwise
case-insensitively distinct names; no returned draft's name equals (case-insensitively)
any existing term name — including generated names that differ from their source
asset's display name; and every returned draft was produced by a generator call on
some input asset, carries status `PENDING_REVIEW`, and has `source_assets` equal to
the singleton of that asset's qualified name. -/
theorem output_invariant (llm : LLMOracle) (uuid : AssetMetadata → String)
    (assets : List AssetMetadata) (us : List (String × UsageSignals)) (tgq : String)
    (existing : List String) (bs : Nat) :
    List.Pairwise (fun d1 d2 => d1.name.lower ≠ d2.name.lower)
      (generate_all_terms llm uuid assets us tgq existing bs).all_drafts
    ∧ (∀ d ∈ (generate_all_terms llm uuid assets us tgq existing bs).all_drafts,
        ∀ n ∈ existing, d.name.lower ≠ n.lower)
    ∧ (∀ d ∈ (generate_all_terms llm uuid assets us tgq existing bs).all_drafts,
        d.status = TermStatus.PENDING_REVIEW
        ∧ ∃ a ∈ assets,
            generate_term llm uuid a (us.lookup a.qualified_name) tgq = some d
            ∧ d.source_assets = [a.qualified_name]) := by
  rw [generate_all_terms_eq]
  refine ⟨retainFirst_pairwise _ _ _, ?_, ?_⟩
  · intro d hd n hn heq
    have hnot := (retainFirst_mem_not_seen _ _ _ _ hd).1
    exact hnot (heq ▸ List.mem_map.mpr ⟨n, hn, rfl⟩)
  · intro d hd
    have hdp : d ∈ producedDrafts llm uuid assets us tgq existing bs :=
      (retainFirst_sublist _ _ _).subset hd
    rcases mem_producedDrafts hdp with ⟨a, ha, hgen⟩
    rw [List.mem_filter] at ha
    rcases generate_term_some hgen with ⟨hstat, hsrc⟩
    exact ⟨hstat, a, ha.1, hgen, hsrc⟩

/-- Witness for C10 at a concrete run: the single produced draft (for a generator
returning name "Generated Name" against an asset list of one) satisfies the
invariant's per-draft part. -/
def draftGeneratedName : GlossaryTermDraft :=
  { id := "id-1", name := "Generated Name", definition := ""
    source_assets := ["db.sch.cust"], confidence := "medium"
    status := TermStatus.PENDING_REVIEW, term_type := TermType.business_term
    target_glossary_qn := "g" }

theorem output_invariant_witness :
    draftGeneratedName.status = TermStatus.PENDING_REVIEW
    ∧ ∃ a ∈ [assetCustomer],
        generate_term llmFixedName uuidConst a (List.lookup a.qualified_name []) "g"
          = some draftGeneratedName
        ∧ draftGeneratedName.source_assets = [a.qualified_name] :=
  (output_invariant llmFixedName uuidConst [assetCustomer] [] "g" [] 5).2.2
    draftGeneratedName (by decide)

/-! ## Dapr state store model (`src/app/activities.py`) -/

/-- The keys `activities.py` uses in the Dapr state store: the master batch index
(`"glossary_batch_index"`), per-batch indices (`f"glossary_batch_{bid}"`) and per-term
records (`f"glossary_term_{tid}"`). The three textual prefixes are distinct, so the
namespaces never collide; the structured key type makes that explicit. -/
inductive StoreKey where
  | master
  | batch (batch_id : String)
  | term (term_id : String)
deriving DecidableEq, Repr

/-- A stored JSON document, typed by the three shapes `activities.py` writes:
the master index `{"batch_ids": [...]}`, a batch index
`{"batch_id", "term_ids", "created_at"}`, and a serialized term draft. -/
inductive StoreEntry where
  | master (batch_ids : List String)
  | batch (term_ids : List String) (created_at : String)
  | term (draft : GlossaryTermDraft)
deriving DecidableEq, Repr

/-- The Dapr state store, modelled as an association list. -/
abbrev Store := List (StoreKey × StoreEntry)

/-- `client.get_state(...)`: an absent key yields a response with empty `data`. -/
def getState : Store → StoreKey → Option StoreEntry
  | [], _ => none
  | (k', v) :: rest, k => if k' = k then some v else getState rest k

/-- `client.save_state(...)`: upsert — replace the key's value in place, else append. -/
def saveState : Store → StoreKey → StoreEntry → Store
  | [], k, v => [(k, v)]
  | (k', v') :: rest, k, v =>
    if k' = k then (k, v) :: rest else (k', v') :: saveState rest k v

theorem getState_saveState_same (store : Store) (k : StoreKey) (v : StoreEntry) :
    getState (saveState store k v) k = some v := by
  induction store with
  | nil => simp [saveState, getState]
  | cons p rest ih =>
    by_cases hp : p.1 = k
    · simp [saveState, getState, hp]
    · simp only [saveState]
      rw [if_neg hp]
      simp only [getState]
      rw [if_neg hp]
      exact ih

theorem getState_saveState_ne (store : Store) {k k' : StoreKey} (v : StoreEntry)
    (h : k' ≠ k) : getState (saveState store k v) k' = getState store k' := by
  induction store with
  | nil =>
    simp only [saveState, getState]
    rw [if_neg (fun hkk => h hkk.symm)]
  | cons p rest ih =>
    by_cases hp : p.1 = k
    · simp only [saveState]
      rw [if_pos hp]
      simp only [getState]
      rw [if_neg (fun hkk => h hkk.symm), if_neg (fun hq => h (hp ▸ hq).symm)]
    · simp only [saveState]
      rw [if_neg hp]
      simp only [getState]
      by_cases hq : p.1 = k'
      · rw [if_pos hq, if_pos hq]
      · rw [if_neg hq, if_neg hq]
        exact ih

/-- `GlossaryActivities._load_existing_draft_names` (`activities.py` lines 238-258):
walk the master batch index, every referenced batch, and every referenced term record,
collecting lowercased term names. (The Python value is a `set`; the enumeration is
consulted only through membership.) -/
def load_existing_draft_names (store : Store) : List String :=
  match getState store StoreKey.master with
  | some (StoreEntry.master batch_ids) =>
    (batch_ids.map fun bid =>
      match getState store (StoreKey.batch bid) with
      | some (StoreEntry.batch term_ids _) =>
        (term_ids.map fun tid =>
          match getState store (StoreKey.term tid) with
          | some (StoreEntry.term draft) => [draft.name.lower]
          | _ => []).flatten
      | _ => []).flatten
  | _ => []

/-- State of the per-draft loop in `save_draft_terms` (lines 275-305): the store, the
growing cross-batch name set, the collected term ids, and the generated / skipped
counters (the skip counter is only logged). Store writes are modelled fault-free and
the `GlossaryTermDraft(**term_data)` re-validation as succeeding — the loop's inputs
here are already well-typed drafts — so `terms_failed` stays 0. -/
structure SaveLoopState where
  store : Store
  existing : List String
  term_ids : List String
  generated : Nat
  skipped : Nat
deriving Repr

def save_terms_loop : SaveLoopState → List GlossaryTermDraft → SaveLoopState
  | st, [] => st
  | st, t :: ts =>
    if st.existing.contains t.name.lower then
      save_terms_loop { st with skipped := st.skipped + 1 } ts
    else
      save_terms_loop
        { store := saveState st.store (StoreKey.term t.id) (StoreEntry.term t)
          existing := st.existing ++ [t.name.lower]
          term_ids := st.term_ids ++ [t.id]
          generated := st.generated + 1
          skipped := st.skipped } ts

/-- `GlossaryActivities.save_draft_terms` (lines 260-348): load the cross-batch name
set once, run the per-draft loop, write the batch index (whose `created_at` field the
code populates with `result.batch_id`), and append the batch id to the master index if
absent. -/
def save_draft_terms (terms : List GlossaryTermDraft) (batch_id : String)
    (store : Store) : BatchResult × Store :=
  let existing_draft_names := load_existing_draft_names store
  let st := save_terms_loop
    { store := store, existing := existing_draft_names, term_ids := []
      generated := 0, skipped := 0 } terms
  let store₁ := saveState st.store (StoreKey.batch batch_id)
    (StoreEntry.batch st.term_ids batch_id)
  let master_ids := match getState store₁ StoreKey.master with
    | some (StoreEntry.master bids) => bids
    | _ => []
  let master_ids' := if batch_id ∈ master_ids then master_ids else master_ids ++ [batch_id]
  let store₂ := saveState store₁ StoreKey.master (StoreEntry.master master_ids')
  ({ batch_id := batch_id, terms_generated := st.generated, terms_failed := 0
     term_ids := st.term_ids, errors := [] }, store₂)

/-- The batch ids currently recorded in the master index (empty when the index is
absent or malformed — the code supplies `{"batch_ids": []}` in those cases). -/
def masterIds (store : Store) : List String :=
  match getState store StoreKey.master with
  | some (StoreEntry.master bids) => bids
  | _ => []

/-- The sequence of term-record writes performed for a list of accepted drafts. -/
def writeTerms (store : Store) (ds : List GlossaryTermDraft) : Store :=
  ds.foldl (fun st t => saveState st (StoreKey.term t.id) (StoreEntry.term t)) store

theorem contains_append (l₁ l₂ : List String) (a : String) :
    (l₁ ++ l₂).contains a = (l₁.contains a || l₂.contains a) := by
  by_cases h1 : a ∈ l₁ <;> by_cases h2 : a ∈ l₂ <;>
    simp [List.contains, List.elem_eq_mem, List.mem_append, h1, h2]

theorem save_terms_loop_spec (ex : List String) :
    ∀ (ts : List GlossaryTermDraft) (store : Store) (seen ids : List String)
      (gen skipped : Nat),
      save_terms_loop
        { store := store, existing := ex ++ seen, term_ids := ids
          generated := gen, skipped := skipped } ts
      = { store := writeTerms store (retainFirst ex seen ts)
          existing := (ex ++ seen)
            ++ (retainFirst ex seen ts).map (fun d => d.name.lower)
          term_ids := ids ++ (retainFirst ex seen ts).map (fun d => d.id)
          generated := gen + (retainFirst ex seen ts).length
          skipped := skipped + (ts.length - (retainFirst ex seen ts).length) } := by
  intro ts
  induction ts with
  | nil =>
    intro store seen ids gen skipped
    simp [save_terms_loop, retainFirst, writeTerms]
  | cons t ts ih =>
    intro store seen ids gen skipped
    have hcond : (ex ++ seen).contains t.name.lower
        = (ex.contains t.name.lower || seen.contains t.name.lower) :=
      contains_append ex seen t.name.lower
    cases h : (ex.contains t.name.lower || seen.contains t.name.lower) with
    | true =>
      have hlen := retainFirst_length_le ex ts seen
      simp only [save_terms_loop, hcond, h, if_true, ih, retainFirst,
        SaveLoopState.mk.injEq, List.length_cons]
      refine ⟨?_, ?_, ?_, ?_, ?_⟩ <;> first | trivial | omega
    | false =>
      have hlen := retainFirst_length_le ex ts (seen ++ [t.name.lower])
      have hexist : (ex ++ seen) ++ [t.name.lower] = ex ++ (seen ++ [t.name.lower]) := by
        rw [List.append_assoc]
      simp only [save_terms_loop, hcond, h, Bool.false_eq_true, if_false]
      rw [hexist, ih]
      simp only [retainFirst, h, Bool.false_eq_true, if_false, List.map_cons,
        writeTerms, List.foldl_cons, SaveLoopState.mk.injEq, List.length_cons]
      refine ⟨?_, ?_, ?_, ?_, ?_⟩ <;>
        first | trivial | omega | simp [List.append_assoc]

theorem getState_writeTerms_ne {k : StoreKey} :
    ∀ (ds : List GlossaryTermDraft) (store : Store),
      (∀ t ∈ ds, StoreKey.term t.id ≠ k) →
      getState (writeTerms store ds) k = getState store k := by
  intro ds
  induction ds with
  | nil => intro store _; rfl
  | cons d rest ih =>
    intro store hne
    show getState (writeTerms (saveState store (StoreKey.term d.id) (StoreEntry.term d)) rest) k
      = getState store k
    rw [ih _ (fun t ht => hne t (List.mem_cons_of_mem d ht))]
    exact getState_saveState_ne store _ (fun hk => hne d (List.mem_cons_self d rest) hk.symm)

theorem getState_writeTerms_mem :
    ∀ (ds : List GlossaryTermDraft) (store : Store) (t : GlossaryTermDraft),
      (ds.map (fun d => d.id)).Nodup → t ∈ ds →
      getState (writeTerms store ds) (StoreKey.term t.id) = some (StoreEntry.term t) := by
  intro ds
  induction ds with
  | nil => intro store t _ ht; simp at ht
  | cons d rest ih =>
    intro store t hnd ht
    rw [List.map_cons, List.nodup_cons] at hnd
    rcases List.mem_cons.mp ht with rfl | ht
    · show getState (writeTerms (saveState store _ _) rest) (StoreKey.term t.id) = _
      rw [getState_writeTerms_ne rest _ ?hne]
      · exact getState_saveState_same store _ _
      case hne =>
        intro s hs hk
        have : s.id = t.id := by
          have := StoreKey.term.injEq s.id t.id ▸ hk
          simpa using hk
        exact hnd.1 (this ▸ List.mem_map.mpr ⟨s, hs, rfl⟩)
    · exact ih _ t hnd.2 ht

/-- The two drafts of the C3 counterexample: same name up to case, distinct ids. -/
def draftOrder1 : GlossaryTermDraft :=
  { id := "t1", name := "Order", definition := "d1", target_glossary_qn := "g" }

def draftOrder2 : GlossaryTermDraft :=
  { id := "t2", name := "order", definition := "d2", target_glossary_qn := "g" }

/-- C3 — counterexample. The claim says a draft is skipped exactly when its name
collides with the union of names from previously persisted batches, and that "every
non-colliding draft is persisted keyed by its id and its id accumulated into the
batch's id list". The code additionally adds each draft saved *in the same call* to
the collision set (`activities.py` line 299): against an empty store (no prior
batches, loaded name set empty) the batch `[Order, order]` keeps only `"t1"` —
`"t2"` collides with nothing persisted, yet is not written and does not appear in
`term_ids`. -/
theorem save_batch_cross_run_counterexample :
    load_existing_draft_names [] = []
    ∧ (save_draft_terms [draftOrder1, draftOrder2] "b1" []).1.term_ids = ["t1"]
    ∧ getState (save_draft_terms [draftOrder1, draftOrder2] "b1" []).2
        (StoreKey.term "t2") = none := by
  refine ⟨rfl, ?_, ?_⟩ <;> decide

/-- C3 (amended) — cross-run dedup at persistence, where the collision set also grows
with the names saved earlier in the same call: the persisted drafts are exactly the
first-occurrence filter (`retainFirst`) of the input against the name union loaded
from all prior batches; a draft whose name collides with the loaded union is not
written and its id is absent from the returned `term_ids`; every retained draft is
persisted under its id-key and its id accumulated in order; the batch index records
exactly those ids; and the batch id is appended to the master index when absent. -/
theorem save_batch_amended (terms : List GlossaryTermDraft) (batch_id : String)
    (store : Store) (hids : (terms.map (fun t => t.id)).Nodup) :
    (save_draft_terms terms batch_id store).1.term_ids
      = (retainFirst (load_existing_draft_names store) [] terms).map (fun t => t.id)
    ∧ (save_draft_terms terms batch_id store).1.terms_generated
      = (retainFirst (load_existing_draft_names store) [] terms).length
    ∧ (∀ t ∈ terms, t.name.lower ∈ load_existing_draft_names store →
        t.id ∉ (save_draft_terms terms batch_id store).1.term_ids
        ∧ getState (save_draft_terms terms batch_id store).2 (StoreKey.term t.id)
          = getState store (StoreKey.term t.id))
    ∧ (∀ t ∈ retainFirst (load_existing_draft_names store) [] terms,
        getState (save_draft_terms terms batch_id store).2 (StoreKey.term t.id)
          = some (StoreEntry.term t))
    ∧ getState (save_draft_terms terms batch_id store).2 (StoreKey.batch batch_id)
      = some (StoreEntry.batch
          ((retainFirst (load_existing_draft_names store) [] terms).map (fun t => t.id))
          batch_id)
    ∧ getState (save_draft_terms terms batch_id store).2 StoreKey.master
      = some (StoreEntry.master
          (if batch_id ∈ masterIds store then masterIds store
           else masterIds store ++ [batch_id])) := by
  have hloop := save_terms_loop_spec (load_existing_draft_names store) terms store [] [] 0 0
  rw [List.append_nil] at hloop
  set ex := load_existing_draft_names store with hex
  set saved := retainFirst ex [] terms with hsaved
  have hsub : saved.Sublist terms := retainFirst_sublist ex terms []
  have hsavednd : (saved.map (fun t => t.id)).Nodup := (hsub.map _).nodup hids
  have hres : save_draft_terms terms batch_id store
      = ({ batch_id := batch_id, terms_generated := saved.length, terms_failed := 0
           term_ids := saved.map (fun t => t.id), errors := [] },
         saveState
           (saveState (writeTerms store saved) (StoreKey.batch batch_id)
             (StoreEntry.batch (saved.map (fun t => t.id)) batch_id))
           StoreKey.master
           (StoreEntry.master
             (if batch_id ∈ masterIds store then masterIds store
              else masterIds store ++ [batch_id]))) := by
    simp only [save_draft_terms]
    rw [← hex, hloop]
    simp only [← hsaved, List.nil_append, Nat.zero_add]
    have hm : (match getState
          (saveState (writeTerms store saved) (StoreKey.batch batch_id)
            (StoreEntry.batch (saved.map (fun t => t.id)) batch_id)) StoreKey.master with
        | some (StoreEntry.master bids) => bids
        | _ => ([] : List String)) = masterIds store := by
      rw [getState_saveState_ne _ _ (by simp),
        getState_writeTerms_ne saved store (fun t _ => by simp)]
      rfl
    rw [hm]
  rw [hres]
  refine ⟨rfl, rfl, ?_, ?_, ?_, ?_⟩
  · intro t ht hname
    have htnot : t ∉ saved := by
      intro hmem
      exact (retainFirst_mem_not_seen ex terms [] t hmem).1 hname
    constructor
    · intro hidmem
      rcases List.mem_map.mp hidmem with ⟨s, hs, hsid⟩
      have : s = t :=
        List.inj_on_of_nodup_map hids (hsub.subset hs) ht hsid
      exact htnot (this ▸ hs)
    · rw [getState_saveState_ne _ _ (by simp), getState_saveState_ne _ _ (by simp)]
      apply getState_writeTerms_ne
      intro s hs hk
      have hsid : s.id = t.id := by simpa using hk
      have : s = t :=
        List.inj_on_of_nodup_map hids (hsub.subset hs) ht hsid
      exact htnot (this ▸ hs)
  · intro t ht
    rw [getState_saveState_ne _ _ (by simp), getState_saveState_ne _ _ (by simp)]
    exact getState_writeTerms_mem saved store t hsavednd ht
  · rw [getState_saveState_ne _ _ (by simp)]
    exact getState_saveState_same _ _ _
  · exact getState_saveState_same _ _ _

/-- Witness for C3 (amended): a prior batch contains a term named "Order"; a new
draft named "order" (the spec's own cross-run example) is dropped — its id is not in
`term_ids` and the store is untouched at its key — while a non-colliding draft is
persisted. -/
def priorStore : Store :=
  [(StoreKey.master, StoreEntry.master ["b0"]),
   (StoreKey.batch "b0", StoreEntry.batch ["t0"] "b0"),
   (StoreKey.term "t0", StoreEntry.term
     { id := "t0", name := "Order", definition := "d0", target_glossary_qn := "g" })]

def draftOrderLower : GlossaryTermDraft :=
  { id := "t9", name := "order", definition := "d9", target_glossary_qn := "g" }

theorem save_batch_amended_witness :
    draftOrderLower.id ∉ (save_draft_terms [draftOrderLower] "b1" priorStore).1.term_ids
    ∧ getState (save_draft_terms [draftOrderLower] "b1" priorStore).2
        (StoreKey.term draftOrderLower.id)
      = getState priorStore (StoreKey.term draftOrderLower.id) :=
  (save_batch_amended [draftOrderLower] "b1" priorStore (by decide)).2.2.1
    draftOrderLower (by decide) (by decide)

/-! ## Publication (`GlossaryActivities.publish_terms`, `activities.py` lines 500-553) -/

/-- The result dict `{"published": 0, "failed": 0, "errors": []}`. -/
structure PublishResults where
  published : Nat := 0
  failed : Nat := 0
  errors : List String := []
deriving DecidableEq, Repr

/-- The catalog's term-creation operation (`atlan_client.create_glossary_term`):
`.error` models a raised exception, `.ok none` the documented no-asset-created
failure, `.ok (some qn)` success with the created qualified name. -/
abbrev CreateOracle := GlossaryTermDraft → Except String (Option String)

/-- The per-id loop of `publish_terms`. `calls` records, in order, the drafts passed
to the catalog create operation. A stored document at the term key that is not a term
record would fail `GlossaryTermDraft(**term_data)` re-validation; the per-item
`except` then counts it as failed with the exception text. -/
def publish_terms_loop (create : CreateOracle) :
    Store → PublishResults → List GlossaryTermDraft → List String →
    PublishResults × Store × List GlossaryTermDraft
  | store, res, calls, [] => (res, store, calls)
  | store, res, calls, term_id :: rest =>
    match getState store (StoreKey.term term_id) with
    | none =>
      publish_terms_loop create store
        { res with failed := res.failed + 1
                   errors := res.errors ++ ["Term not found: " ++ term_id] } calls rest
    | some (StoreEntry.term term) =>
      if term.status = TermStatus.APPROVED then
        match create term with
        | Except.error e =>
          publish_terms_loop create store
            { res with failed := res.failed + 1, errors := res.errors ++ [e] }
            (calls ++ [term]) rest
        | Except.ok none =>
          publish_terms_loop create store
            { res with failed := res.failed + 1
                       errors := res.errors ++ ["Failed to create term: " ++ term_id] }
            (calls ++ [term]) rest
        | Except.ok (some _) =>
          publish_terms_loop create
            (saveState store (StoreKey.term term_id)
              (StoreEntry.term { term with status := TermStatus.PUBLISHED }))
            { res with published := res.published + 1 } (calls ++ [term]) rest
      else
        publish_terms_loop create store
          { res with failed := res.failed + 1
                     errors := res.errors ++ ["Term not approved: " ++ term_id] } calls rest
    | some _ =>
      publish_terms_loop create store
        { res with failed := res.failed + 1
                   errors := res.errors ++ ["validation error: " ++ term_id] } calls rest

/-- `GlossaryActivities.publish_terms`. -/
def publish_terms (create : CreateOracle) (term_ids : List String) (store : Store) :
    PublishResults × Store × List GlossaryTermDraft :=
  publish_terms_loop create store {} [] term_ids
/-- The stored draft at a term id when it is approved (the exact condition under
which the loop reaches the catalog create call). -/
def approvedDraftAt (store : Store) (term_id : String) : Option GlossaryTermDraft :=
  match getState store (StoreKey.term term_id) with
  | some (StoreEntry.term t) => if t.status = TermStatus.APPROVED then some t else none
  | _ => none

/-- Whether processing `term_id` against `store` publishes (approved and the create
call returns a qualified name). -/
def publishOK (create : CreateOracle) (store : Store) (term_id : String) : Bool :=
  match approvedDraftAt store term_id with
  | some t => match create t with | Except.ok (some _) => true | _ => false
  | none => false

/-- The error strings contributed by processing one id against `store`. -/
def publishStepErrors (create : CreateOracle) (store : Store) (term_id : String) :
    List String :=
  match getState store (StoreKey.term term_id) with
  | none => ["Term not found: " ++ term_id]
  | some (StoreEntry.term t) =>
    if t.status = TermStatus.APPROVED then
      match create t with
      | Except.error e => [e]
      | Except.ok none => ["Failed to create term: " ++ term_id]
      | Except.ok (some _) => []
    else ["Term not approved: " ++ term_id]
  | some _ => ["validation error: " ++ term_id]

/-- The store transformation performed by processing one id. -/
def publishStepStore (create : CreateOracle) (store : Store) (term_id : String) : Store :=
  match getState store (StoreKey.term term_id) with
  | some (StoreEntry.term t) =>
    if t.status = TermStatus.APPROVED then
      match create t with
      | Except.ok (some _) =>
        saveState store (StoreKey.term term_id)
          (StoreEntry.term { t with status := TermStatus.PUBLISHED })
      | _ => store
    else store
  | _ => store

theorem getState_publishStepStore_ne (create : CreateOracle) (store : Store)
    {term_id tid : String} (h : tid ≠ term_id) :
    getState (publishStepStore create store term_id) (StoreKey.term tid)
      = getState store (StoreKey.term tid) := by
  cases hg : getState store (StoreKey.term term_id) with
  | none => simp only [publishStepStore, hg]
  | some e =>
    cases e with
    | master _ => simp only [publishStepStore, hg]
    | batch _ _ => simp only [publishStepStore, hg]
    | term t =>
      by_cases hs : t.status = TermStatus.APPROVED
      · cases hc : create t with
        | error e => simp only [publishStepStore, hg, if_pos hs, hc]
        | ok o =>
          cases o with
          | none => simp only [publishStepStore, hg, if_pos hs, hc]
          | some qn =>
            simp only [publishStepStore, hg, if_pos hs, hc]
            exact getState_saveState_ne store _ (by simp [h])
      · simp only [publishStepStore, hg, if_neg hs]

/-- The master characterization of the publish loop: against a duplicate-free id
list, the loop (a) calls the catalog exactly on the approved stored drafts, in id
order; (b) publishes exactly the ids whose create call returns a name and fails all
others; (c) accumulates exactly the per-id error strings; (d) transforms the store by
the per-id step transformations. All per-id observations are taken against the store
as it was at the start of the call — valid because each step writes at most its own
term key. -/
theorem publish_terms_loop_spec (create : CreateOracle) :
    ∀ (ids : List String), ids.Nodup →
      ∀ (store : Store) (res : PublishResults) (calls : List GlossaryTermDraft),
      publish_terms_loop create store res calls ids
        = ({ published := res.published
               + (ids.filter (publishOK create store)).length
             failed := res.failed
               + (ids.length - (ids.filter (publishOK create store)).length)
             errors := res.errors
               ++ (ids.map (publishStepErrors create store)).flatten },
           ids.foldl (publishStepStore create) store,
           calls ++ ids.filterMap (approvedDraftAt store)) := by
  intro ids
  induction ids with
  | nil =>
    intro _ store res calls
    simp [publish_terms_loop]
  | cons term_id rest ih =>
    intro hnd store res calls
    rw [List.nodup_cons] at hnd
    have hstable : ∀ tid ∈ rest,
        getState (publishStepStore create store term_id) (StoreKey.term tid)
          = getState store (StoreKey.term tid) := by
      intro tid htid
      exact getState_publishStepStore_ne create store (fun he => hnd.1 (he ▸ htid))
    have hfcongr : rest.filter (publishOK create (publishStepStore create store term_id))
        = rest.filter (publishOK create store) := by
      apply List.filter_congr
      intro tid htid
      unfold publishOK approvedDraftAt
      rw [hstable tid htid]
    have hecongr : rest.map (publishStepErrors create (publishStepStore create store term_id))
        = rest.map (publishStepErrors create store) := by
      apply List.map_congr_left
      intro tid htid
      unfold publishStepErrors
      rw [hstable tid htid]
    have hccongr : rest.filterMap (approvedDraftAt (publishStepStore create store term_id))
        = rest.filterMap (approvedDraftAt store) := by
      apply List.filterMap_congr
      intro tid htid
      unfold approvedDraftAt
      rw [hstable tid htid]
    have hrest := ih hnd.2
    have hfle := List.length_filter_le (publishOK create store) rest
    cases hg : getState store (StoreKey.term term_id) with
    | none =>
      have hok : publishOK create store term_id = false := by
        simp only [publishOK, approvedDraftAt, hg]
      have herr : publishStepErrors create store term_id
          = ["Term not found: " ++ term_id] := by
        simp only [publishStepErrors, hg]
      have happ : approvedDraftAt store term_id = none := by
        simp only [approvedDraftAt, hg]
      have hstep : publishStepStore create store term_id = store := by
        simp only [publishStepStore, hg]
      simp only [publish_terms_loop, hg, hrest store, List.filter_cons, hok,
        Bool.false_eq_true, if_false, List.map_cons, herr, List.flatten_cons,
        List.foldl_cons, hstep, List.filterMap_cons, happ, List.length_cons,
        Prod.mk.injEq, PublishResults.mk.injEq]
      repeat' apply And.intro
      all_goals first | trivial | omega | simp
    | some entry =>
      cases entry with
      | term t =>
        by_cases hs : t.status = TermStatus.APPROVED
        · cases hc : create t with
          | error e =>
            have hok : publishOK create store term_id = false := by
              simp only [publishOK, approvedDraftAt, hg, if_pos hs, hc]
            have herr : publishStepErrors create store term_id = [e] := by
              simp only [publishStepErrors, hg, if_pos hs, hc]
            have happ : approvedDraftAt store term_id = some t := by
              simp only [approvedDraftAt, hg, if_pos hs]
            have hstep : publishStepStore create store term_id = store := by
              simp only [publishStepStore, hg, if_pos hs, hc]
            simp only [publish_terms_loop, hg, if_pos hs, hc, hrest store,
              List.filter_cons, hok, Bool.false_eq_true, if_false, List.map_cons,
              herr, List.flatten_cons, List.foldl_cons, hstep, List.filterMap_cons,
              happ, List.length_cons, Prod.mk.injEq, PublishResults.mk.injEq]
            repeat' apply And.intro
            all_goals first | trivial | omega | simp
          | ok o =>
            cases o with
            | none =>
              have hok : publishOK create store term_id = false := by
                simp only [publishOK, approvedDraftAt, hg, if_pos hs, hc]
              have herr : publishStepErrors create store term_id
                  = ["Failed to create term: " ++ term_id] := by
                simp only [publishStepErrors, hg, if_pos hs, hc]
              have happ : approvedDraftAt store term_id = some t := by
                simp only [approvedDraftAt, hg, if_pos hs]
              have hstep : publishStepStore create store term_id = store := by
                simp only [publishStepStore, hg, if_pos hs, hc]
              simp only [publish_terms_loop, hg, if_pos hs, hc, hrest store,
                List.filter_cons, hok, Bool.false_eq_true, if_false, List.map_cons,
                herr, List.flatten_cons, List.foldl_cons, hstep, List.filterMap_cons,
                happ, List.length_cons, Prod.mk.injEq, PublishResults.mk.injEq]
              repeat' apply And.intro
              all_goals first | trivial | omega | simp
            | some qn =>
              have hok : publishOK create store term_id = true := by
                simp only [publishOK, approvedDraftAt, hg, if_pos hs, hc]
              have herr : publishStepErrors create store term_id = [] := by
                simp only [publishStepErrors, hg, if_pos hs, hc]
              have happ : approvedDraftAt store term_id = some t := by
                simp only [approvedDraftAt, hg, if_pos hs]
              have hstep : publishStepStore create store term_id
                  = saveState store (StoreKey.term term_id)
                      (StoreEntry.term { t with status := TermStatus.PUBLISHED }) := by
                simp only [publishStepStore, hg, if_pos hs, hc]
              rw [show publish_terms_loop create store res calls (term_id :: rest)
                  = publish_terms_loop create
                      (saveState store (StoreKey.term term_id)
                        (StoreEntry.term { t with status := TermStatus.PUBLISHED }))
                      { res with published := res.published + 1 } (calls ++ [t]) rest by
                simp only [publish_terms_loop, hg, if_pos hs, hc]]
              rw [← hstep]
              rw [ih hnd.2 (publishStepStore create store term_id)
                { res with published := res.published + 1 } (calls ++ [t])]
              rw [hfcongr, hecongr, hccongr, hstep]
              simp only [List.filter_cons, hok, if_true, List.map_cons, herr,
                List.flatten_cons, List.nil_append, List.foldl_cons,
                List.filterMap_cons, happ, List.length_cons, Prod.mk.injEq,
                PublishResults.mk.injEq]
              repeat' apply And.intro
              all_goals first | trivial | omega | rw [hstep] | simp
        · have hok : publishOK create store term_id = false := by
            simp only [publishOK, approvedDraftAt, hg, if_neg hs]
          have herr : publishStepErrors create store term_id
              = ["Term not approved: " ++ term_id] := by
            simp only [publishStepErrors, hg, if_neg hs]
          have happ : approvedDraftAt store term_id = none := by
            simp only [approvedDraftAt, hg, if_neg hs]
          have hstep : publishStepStore create store term_id = store := by
            simp only [publishStepStore, hg, if_neg hs]
          simp only [publish_terms_loop, hg, if_neg hs, hrest store,
            List.filter_cons, hok, Bool.false_eq_true, if_false, List.map_cons,
            herr, List.flatten_cons, List.foldl_cons, hstep, List.filterMap_cons,
            happ, List.length_cons, Prod.mk.injEq, PublishResults.mk.injEq]
          repeat' apply And.intro
          all_goals first | trivial | omega | simp
      | master bids =>
        have hok : publishOK create store term_id = false := by
          simp only [publishOK, approvedDraftAt, hg]
        have herr : publishStepErrors create store term_id
            = ["validation error: " ++ term_id] := by
          simp only [publishStepErrors, hg]
        have happ : approvedDraftAt store term_id = none := by
          simp only [approvedDraftAt, hg]
        have hstep : publishStepStore create store term_id = store := by
          simp only [publishStepStore, hg]
        simp only [publish_terms_loop, hg, hrest store, List.filter_cons, hok,
          Bool.false_eq_true, if_false, List.map_cons, herr, List.flatten_cons,
          List.foldl_cons, hstep, List.filterMap_cons, happ, List.length_cons,
          Prod.mk.injEq, PublishResults.mk.injEq]
        repeat' apply And.intro
        all_goals first | trivial | omega | simp
      | batch tids c =>
        have hok : publishOK create store term_id = false := by
          simp only [publishOK, approvedDraftAt, hg]
        have herr : publishStepErrors create store term_id
            = ["validation error: " ++ term_id] := by
          simp only [publishStepErrors, hg]
        have happ : approvedDraftAt store term_id = none := by
          simp only [approvedDraftAt, hg]
        have hstep : publishStepStore create store term_id = store := by
          simp only [publishStepStore, hg]
        simp only [publish_terms_loop, hg, hrest store, List.filter_cons, hok,
          Bool.false_eq_true, if_false, List.map_cons, herr, List.flatten_cons,
          List.foldl_cons, hstep, List.filterMap_cons, happ, List.length_cons,
          Prod.mk.injEq, PublishResults.mk.injEq]
        repeat' apply And.intro
        all_goals first | trivial | omega | simp

/-- The effect of processing one id on the value stored at that id's own key. -/
def publishStepAtKey (create : CreateOracle) (v : Option StoreEntry) : Option StoreEntry :=
  match v with
  | some (StoreEntry.term t) =>
    if t.status = TermStatus.APPROVED then
      match create t with
      | Except.ok (some _) => some (StoreEntry.term { t with status := TermStatus.PUBLISHED })
      | _ => v
    else v
  | _ => v

theorem getState_publishStepStore_self (create : CreateOracle) (store : Store)
    (term_id : String) :
    getState (publishStepStore create store term_id) (StoreKey.term term_id)
      = publishStepAtKey create (getState store (StoreKey.term term_id)) := by
  cases hg : getState store (StoreKey.term term_id) with
  | none => simp only [publishStepStore, publishStepAtKey, hg]
  | some e =>
    cases e with
    | master _ => simp only [publishStepStore, publishStepAtKey, hg]
    | batch _ _ => simp only [publishStepStore, publishStepAtKey, hg]
    | term t =>
      by_cases hs : t.status = TermStatus.APPROVED
      · cases hc : create t with
        | error e => simp only [publishStepStore, publishStepAtKey, hg, if_pos hs, hc]
        | ok o =>
          cases o with
          | none => simp only [publishStepStore, publishStepAtKey, hg, if_pos hs, hc]
          | some qn =>
            simp only [publishStepStore, publishStepAtKey, hg, if_pos hs, hc]
            exact getState_saveState_same store _ _
      · simp only [publishStepStore, publishStepAtKey, hg, if_neg hs]

theorem getState_foldl_publishStep_stable (create : CreateOracle) {tid : String} :
    ∀ (ids : List String) (store : Store), tid ∉ ids →
      getState (ids.foldl (publishStepStore create) store) (StoreKey.term tid)
        = getState store (StoreKey.term tid) := by
  intro ids
  induction ids with
  | nil => intro store _; rfl
  | cons a rest ih =>
    intro store h
    rw [List.mem_cons] at h
    push_neg at h
    show getState (rest.foldl (publishStepStore create) (publishStepStore create store a))
        (StoreKey.term tid) = _
    rw [ih _ h.2, getState_publishStepStore_ne create store h.1]

theorem getState_foldl_publishStep_mem (create : CreateOracle) {tid : String} :
    ∀ (ids : List String) (store : Store), ids.Nodup → tid ∈ ids →
      getState (ids.foldl (publishStepStore create) store) (StoreKey.term tid)
        = publishStepAtKey create (getState store (StoreKey.term tid)) := by
  intro ids
  induction ids with
  | nil => intro store _ h; simp at h
  | cons a rest ih =>
    intro store hnd hmem
    rw [List.nodup_cons] at hnd
    rcases List.mem_cons.mp hmem with rfl | hmem
    · show getState (rest.foldl (publishStepStore create) (publishStepStore create store tid))
          (StoreKey.term tid) = _
      rw [getState_foldl_publishStep_stable create rest _ hnd.1]
      exact getState_publishStepStore_self create store tid
    · have hne : tid ≠ a := fun he => hnd.1 (he ▸ hmem)
      show getState (rest.foldl (publishStepStore create) (publishStepStore create store a))
          (StoreKey.term tid) = _
      rw [ih _ hnd.2 hmem, getState_publishStepStore_ne create store hne]

theorem mem_errors_of_step {create : CreateOracle} {store : Store} {term_ids : List String}
    {tid e : String} (htid : tid ∈ term_ids)
    (he : e ∈ publishStepErrors create store tid) :
    e ∈ (term_ids.map (publishStepErrors create store)).flatten :=
  List.mem_flatten.mpr ⟨publishStepErrors create store tid,
    List.mem_map.mpr ⟨tid, htid, rfl⟩, he⟩

/-- C6 — Publish gating and atomicity. For a duplicate-free id list:
(1) the catalog create operation is called exactly on the stored drafts in
`APPROVED` status, in id order (so a missing draft, a non-term document, or a draft
in `DRAFT` / `PENDING_REVIEW` never reaches the catalog);
(2) every id contributes exactly one outcome — `published` counts the approved
drafts whose create call returned a qualified name, all other ids are counted in
`failed` (one failure never blocks the others: the loop is a total fold);
(3) a missing draft yields a "Term not found" error;
(4) a draft not in `APPROVED` status yields a "Term not approved" error and its
stored record is unchanged;
(5) on create success the stored draft transitions to `PUBLISHED`;
(6) on a create exception or an empty create result the stored draft remains exactly
as it was (status still `APPROVED`) and an error is recorded. -/
theorem publish_gating (create : CreateOracle) (store : Store) (term_ids : List String)
    (hnd : term_ids.Nodup) :
    (publish_terms create term_ids store).2.2
      = term_ids.filterMap (approvedDraftAt store)
    ∧ (publish_terms create term_ids store).1.published
        = (term_ids.filter (publishOK create store)).length
    ∧ (publish_terms create term_ids store).1.published
        + (publish_terms create term_ids store).1.failed = term_ids.length
    ∧ (∀ tid ∈ term_ids, getState store (StoreKey.term tid) = none →
        ("Term not found: " ++ tid) ∈ (publish_terms create term_ids store).1.errors)
    ∧ (∀ tid ∈ term_ids, ∀ t : GlossaryTermDraft,
        getState store (StoreKey.term tid) = some (StoreEntry.term t) →
        (t.status ≠ TermStatus.APPROVED →
          ("Term not approved: " ++ tid) ∈ (publish_terms create term_ids store).1.errors
          ∧ getState (publish_terms create term_ids store).2.1 (StoreKey.term tid)
            = some (StoreEntry.term t))
        ∧ (t.status = TermStatus.APPROVED →
            (∀ qn : String, create t = Except.ok (some qn) →
              getState (publish_terms create term_ids store).2.1 (StoreKey.term tid)
                = some (StoreEntry.term { t with status := TermStatus.PUBLISHED }))
            ∧ (create t = Except.ok none →
              getState (publish_terms create term_ids store).2.1 (StoreKey.term tid)
                = some (StoreEntry.term t)
              ∧ ("Failed to create term: " ++ tid)
                  ∈ (publish_terms create term_ids store).1.errors)
            ∧ (∀ e : String, create t = Except.error e →
              getState (publish_terms create term_ids store).2.1 (StoreKey.term tid)
                = some (StoreEntry.term t)
              ∧ e ∈ (publish_terms create term_ids store).1.errors))) := by
  have hspec := publish_terms_loop_spec create term_ids hnd store {} []
  have hle := List.length_filter_le (publishOK create store) term_ids
  unfold publish_terms
  rw [hspec]
  refine ⟨by simp, by simp, ?_, ?_, ?_⟩
  case refine_1 =>
    simp only [Nat.zero_add]
    omega
  · intro tid htid hg
    refine mem_errors_of_step htid ?_
    simp only [publishStepErrors, hg]
    exact List.mem_singleton.mpr rfl
  · intro tid htid t hg
    have hfold := getState_foldl_publishStep_mem create term_ids store hnd htid
    constructor
    · intro hs
      constructor
      · refine mem_errors_of_step htid ?_
        simp only [publishStepErrors, hg, if_neg hs]
        exact List.mem_singleton.mpr rfl
      · rw [hfold]
        simp only [publishStepAtKey, hg, if_neg hs]
    · intro hs
      refine ⟨?_, ?_, ?_⟩
      · intro qn hc
        rw [hfold]
        simp only [publishStepAtKey, hg, if_pos hs, hc]
      · intro hc
        constructor
        · rw [hfold]
          simp only [publishStepAtKey, hg, if_pos hs, hc]
        · refine mem_errors_of_step htid ?_
          simp only [publishStepErrors, hg, if_pos hs, hc]
          exact List.mem_singleton.mpr rfl
      · intro e hc
        constructor
        · rw [hfold]
          simp only [publishStepAtKey, hg, if_pos hs, hc]
        · refine mem_errors_of_step htid ?_
          simp only [publishStepErrors, hg, if_pos hs, hc]
          exact List.mem_singleton.mpr rfl

/-- Witness store for C6: an `APPROVED` draft at id `"ta"` and a `PENDING_REVIEW`
draft at id `"tp"`; the catalog create succeeds on everything it is given. -/
def draftApproved : GlossaryTermDraft :=
  { id := "ta", name := "Alpha", definition := "d", status := TermStatus.APPROVED
    target_glossary_qn := "g" }

def draftPending : GlossaryTermDraft :=
  { id := "tp", name := "Beta", definition := "d", status := TermStatus.PENDING_REVIEW
    target_glossary_qn := "g" }

def publishStoreW : Store :=
  [(StoreKey.term "ta", StoreEntry.term draftApproved),
   (StoreKey.term "tp", StoreEntry.term draftPending)]

def createAlwaysOk : CreateOracle := fun t => Except.ok (some ("qn/" ++ t.name))

theorem publish_gating_witness :
    ("Term not approved: " ++ "tp")
      ∈ (publish_terms createAlwaysOk ["ta", "tp"] publishStoreW).1.errors
    ∧ getState (publish_terms createAlwaysOk ["ta", "tp"] publishStoreW).2.1
        (StoreKey.term "tp") = some (StoreEntry.term draftPending) :=
  ((publish_gating createAlwaysOk publishStoreW ["ta", "tp"] (by decide)).2.2.2.2
    "tp" (by decide) draftPending (by decide)).1 (by decide)

/-! ## JSON model: `json.dumps` (for `ContextBuilder`) and `json.loads`
(for `ClaudeClient`) -/

/-- A JSON value. Numbers carry their lexeme: the pipeline never computes with the
numeric value of a context field — only the serialized text (and its length) matters. -/
inductive JValue where
  | null
  | bool (b : Bool)
  | num (lexeme : String)
  | str (s : String)
  | arr (items : List JValue)
  | obj (fields : List (String × JValue))

/-- The opening curly bracket character. -/
def obChar : Char := Char.ofNat 123

/-- The closing curly bracket character. -/
def cbChar : Char := Char.ofNat 125

def hexDigit (n : Nat) : Char :=
  if n < 10 then Char.ofNat (48 + n) else Char.ofNat (87 + n)

/-- `\uXXXX` escape (lowercase hex, as Python emits). -/
def uEscape (n : Nat) : List Char :=
  ['\\', 'u', hexDigit (n / 4096 % 16), hexDigit (n / 256 % 16),
   hexDigit (n / 16 % 16), hexDigit (n % 16)]

/-- Per-character escaping of Python's `json.dumps` with its default
`ensure_ascii=True`: the two-character escapes for quote, backslash and the common
control characters, `\uXXXX` for other control and non-ASCII characters (surrogate
pairs above the BMP). -/
def escapeChar (c : Char) : List Char :=
  if c = '"' then ['\\', '"']
  else if c = '\\' then ['\\', '\\']
  else if c = '\n' then ['\\', 'n']
  else if c = '\r' then ['\\', 'r']
  else if c = '\t' then ['\\', 't']
  else if c.toNat = 8 then ['\\', 'b']
  else if c.toNat = 12 then ['\\', 'f']
  else if c.toNat < 32 then uEscape c.toNat
  else if c.toNat < 127 then [c]
  else if c.toNat < 65536 then uEscape c.toNat
  else uEscape (55296 + (c.toNat - 65536) / 1024) ++ uEscape (56320 + (c.toNat - 65536) % 1024)

/-- Serialization of a JSON string literal. -/
def dumpsStr (s : String) : String :=
  String.mk ('"' :: (s.data.map escapeChar).flatten ++ ['"'])

mutual

/-- `json.dumps` with Python's default separators `", "` and `": "`. -/
def dumps : JValue → String
  | JValue.null => "null"
  | JValue.bool true => "true"
  | JValue.bool false => "false"
  | JValue.num lexeme => lexeme
  | JValue.str s => dumpsStr s
  | JValue.arr items => "[" ++ dumpsItems items ++ "]"
  | JValue.obj fields =>
    String.mk [obChar] ++ dumpsFields fields ++ String.mk [cbChar]

def dumpsItems : List JValue → String
  | [] => ""
  | [v] => dumps v
  | v :: w :: rest => dumps v ++ ", " ++ dumpsItems (w :: rest)

def dumpsFields : List (String × JValue) → String
  | [] => ""
  | [(k, v)] => dumpsStr k ++ ": " ++ dumps v
  | (k, v) :: f :: rest => dumpsStr k ++ ": " ++ dumps v ++ ", " ++ dumpsFields (f :: rest)

end

/-! ## ContextBuilder truncation (`src/generators/context_builder.py`) -/

/-- A prompt context: the Python dict passed to `truncate_context`, modelled as its
insertion-ordered key/value list (dict keys are unique). -/
abbrev Ctx := List (String × JValue)

/-- `key in d`. -/
def ctxHas (ctx : Ctx) (k : String) : Bool := ctx.any (fun p => decide (p.1 = k))

/-- `d[key]` / `d.get(key)` (first occurrence; dict keys are unique). -/
def ctxGet : Ctx → String → Option JValue
  | [], _ => none
  | (k', v) :: rest, k => if k' = k then some v else ctxGet rest k

/-- `del d[key]`: remove the key, other entries keep their order. -/
def ctxDel (ctx : Ctx) (k : String) : Ctx := ctx.filter (fun p => decide (p.1 ≠ k))

/-- `d[key] = v` for an existing key: the entry keeps its position. -/
def ctxSet (ctx : Ctx) (k : String) (v : JValue) : Ctx :=
  ctx.map (fun p => if p.1 = k then (k, v) else p)

/-- `ContextBuilder.estimate_token_count` (`context_builder.py` lines 145-147):
`len(text) // 4`. -/
def estimate_token_count (text : String) : Nat := text.length / 4

/-- Estimated token count of a context's `json.dumps` serialization. -/
def ctxSize (ctx : Ctx) : Nat := estimate_token_count (dumps (JValue.obj ctx))

/-- Step (1): `del truncated["dbt_context"]["raw_sql"]` when the transformation
context is present (lines 161-167; the in-place mutation of the nested dict, and the
no-op `pass` on lines 166-167, modelled as re-assigning the reduced object). A
non-object `dbt_context` is left unchanged (the pipeline always builds it as a dict). -/
def remRawSql (c : Ctx) : Ctx :=
  match ctxGet c "dbt_context" with
  | some (JValue.obj dbt) =>
    ctxSet c "dbt_context" (JValue.obj (dbt.filter (fun p => decide (p.1 ≠ "raw_sql"))))
  | _ => c

/-- Step (2): `del truncated["sql_definition"]` when present (lines 172-174). -/
def remSqlDef (c : Ctx) : Ctx :=
  if ctxHas c "sql_definition" then ctxDel c "sql_definition" else c

/-- Step (3): `del truncated["dbt_context"]` when present (lines 180-182). -/
def remDbt (c : Ctx) : Ctx :=
  if ctxHas c "dbt_context" then ctxDel c "dbt_context" else c

/-- Second half of step (4): `del truncated["downstream_assets"]` when present. -/
def remDownstream (c : Ctx) : Ctx :=
  if ctxHas c "downstream_assets" then ctxDel c "downstream_assets" else c

/-- Step (4): drop the lineage detail lists (lines 188-192); the separately stored
`upstream_count` / `downstream_count` keys are untouched. -/
def remLineage (c : Ctx) : Ctx :=
  remDownstream (if ctxHas c "upstream_assets" then ctxDel c "upstream_assets" else c)

/-- Step (5): trim the column list to 10 when longer (lines 198-200). -/
def trimCols10 (c : Ctx) : Ctx :=
  match ctxGet c "columns" with
  | some (JValue.arr cols) =>
    if cols.length > 10 then ctxSet c "columns" (JValue.arr (cols.take 10)) else c
  | _ => c

/-- `{"name": col["name"], "data_type": col.get("data_type")}` (lines 208-211).
Contexts built by `build_asset_context` always give each column an object with a
`"name"` key; on the (unreachable) missing-name case Python would raise, modelled by
the `null` default. -/
def stripCol (col : JValue) : JValue :=
  match col with
  | JValue.obj fs =>
    JValue.obj [("name", (ctxGet fs "name").getD JValue.null),
                ("data_type", (ctxGet fs "data_type").getD JValue.null)]
  | other => other

/-- Step (6): strip column descriptions, keeping name and type (lines 206-211). -/
def stripColDescs (c : Ctx) : Ctx :=
  match ctxGet c "columns" with
  | some (JValue.arr cols) => ctxSet c "columns" (JValue.arr (cols.map stripCol))
  | _ => c

/-- Step (7): trim the column list to 5 when longer (lines 217-219). -/
def trimCols5 (c : Ctx) : Ctx :=
  match ctxGet c "columns" with
  | some (JValue.arr cols) =>
    if cols.length > 5 then ctxSet c "columns" (JValue.arr (cols.take 5)) else c
  | _ => c

/-- Lines 217-221: the final step is applied and the result returned without a
further budget check. -/
def truncateStep7 (t : Ctx) : Ctx := trimCols5 t

def truncateStep6 (t : Ctx) (m : Nat) : Ctx :=
  if ctxSize (stripColDescs t) ≤ m then stripColDescs t
  else truncateStep7 (stripColDescs t)

def truncateStep5 (t : Ctx) (m : Nat) : Ctx :=
  if ctxSize (trimCols10 t) ≤ m then trimCols10 t else truncateStep6 (trimCols10 t) m

def truncateStep4 (t : Ctx) (m : Nat) : Ctx :=
  if ctxSize (remLineage t) ≤ m then remLineage t else truncateStep5 (remLineage t) m

def truncateStep3 (t : Ctx) (m : Nat) : Ctx :=
  if ctxSize (remDbt t) ≤ m then remDbt t else truncateStep4 (remDbt t) m

def truncateStep2 (t : Ctx) (m : Nat) : Ctx :=
  if ctxSize (remSqlDef t) ≤ m then remSqlDef t else truncateStep3 (remSqlDef t) m

/-- `ContextBuilder.truncate_context` (`context_builder.py` lines 149-221),
transliterating the nested early-return control flow: the budget is re-checked after
step (1) only inside the `"dbt_context" in truncated` branch, exactly as in the
source. -/
def truncate_context (context : Ctx) (max_tokens : Nat := 2000) : Ctx :=
  if estimate_token_count (dumps (JValue.obj context)) ≤ max_tokens then context
  else
    if ctxHas context "dbt_context" then
      if ctxSize (remRawSql context) ≤ max_tokens then remRawSql context
      else truncateStep2 (remRawSql context) max_tokens
    else truncateStep2 context max_tokens

/-- The degradation ladder exactly as the spec words it: seven removal steps in fixed
order. -/
def ladderSteps : List (Ctx → Ctx) :=
  [remRawSql, remSqlDef, remDbt, remLineage, trimCols10, stripColDescs, trimCols5]

/-- Spec-side engine: apply ladder steps in order, re-checking the budget after each
removal and stopping as soon as the budget is met. -/
def applyLadder (m : Nat) : List (Ctx → Ctx) → Ctx → Ctx
  | [], c => c
  | f :: fs, c => if ctxSize (f c) ≤ m then f c else applyLadder m fs (f c)

/-- Spec-side truncation: unchanged when within budget, else the ladder. -/
def spec_truncate (c : Ctx) (m : Nat) : Ctx :=
  if ctxSize c ≤ m then c else applyLadder m ladderSteps c

theorem step7_ladder (t : Ctx) (m : Nat) : truncateStep7 t = applyLadder m [trimCols5] t := by
  unfold truncateStep7 applyLadder
  split <;> rfl

theorem step6_ladder (t : Ctx) (m : Nat) :
    truncateStep6 t m = applyLadder m [stripColDescs, trimCols5] t := by
  unfold truncateStep6 applyLadder
  split
  · rfl
  · exact step7_ladder _ m

theorem step5_ladder (t : Ctx) (m : Nat) :
    truncateStep5 t m = applyLadder m [trimCols10, stripColDescs, trimCols5] t := by
  unfold truncateStep5 applyLadder
  split
  · rfl
  · exact step6_ladder _ m

theorem step4_ladder (t : Ctx) (m : Nat) :
    truncateStep4 t m = applyLadder m [remLineage, trimCols10, stripColDescs, trimCols5] t := by
  unfold truncateStep4 applyLadder
  split
  · rfl
  · exact step5_ladder _ m

theorem step3_ladder (t : Ctx) (m : Nat) :
    truncateStep3 t m
      = applyLadder m [remDbt, remLineage, trimCols10, stripColDescs, trimCols5] t := by
  unfold truncateStep3 applyLadder
  split
  · rfl
  · exact step4_ladder _ m

theorem step2_ladder (t : Ctx) (m : Nat) :
    truncateStep2 t m
      = applyLadder m
          [remSqlDef, remDbt, remLineage, trimCols10, stripColDescs, trimCols5] t := by
  unfold truncateStep2 applyLadder
  split
  · rfl
  · exact step3_ladder _ m

theorem ctxGet_eq_none_of_not_has {c : Ctx} {k : String} (h : ctxHas c k = false) :
    ctxGet c k = none := by
  induction c with
  | nil => rfl
  | cons p rest ih =>
    simp only [ctxHas, List.any_cons, Bool.or_eq_false_iff, decide_eq_false_iff_not] at h
    simp only [ctxGet, if_neg h.1]
    exact ih (by simp only [ctxHas, List.any_eq_false] at h ⊢; exact fun p hp => h.2 p hp)

theorem remRawSql_of_no_dbt {c : Ctx} (h : ctxHas c "dbt_context" = false) :
    remRawSql c = c := by
  unfold remRawSql
  rw [ctxGet_eq_none_of_not_has h]

/-- Equivalence of the transliterated control flow with the spec's ladder. -/
theorem truncate_eq_ladder (c : Ctx) (m : Nat) :
    truncate_context c m = spec_truncate c m := by
  unfold truncate_context spec_truncate ctxSize
  by_cases h0 : estimate_token_count (dumps (JValue.obj c)) ≤ m
  · rw [if_pos h0, if_pos h0]
  · rw [if_neg h0, if_neg h0]
    show _ = applyLadder m (remRawSql :: _) c
    cases hd : ctxHas c "dbt_context" with
    | true =>
      simp only [hd, if_true]
      unfold applyLadder
      by_cases h1 : ctxSize (remRawSql c) ≤ m
      · rw [if_pos h1]
        unfold ctxSize at h1
        rw [if_pos h1]
      · rw [if_neg h1]
        unfold ctxSize at h1
        rw [if_neg h1]
        exact step2_ladder _ m
    | false =>
      simp only [hd, Bool.false_eq_true, if_false]
      unfold applyLadder
      rw [remRawSql_of_no_dbt hd]
      rw [if_neg (by unfold ctxSize; exact h0)]
      exact step2_ladder _ m

theorem ctxHas_ctxDel_false {c : Ctx} {k : String} (k' : String)
    (h : ctxHas c k = false) : ctxHas (ctxDel c k') k = false := by
  simp only [ctxHas, List.any_eq_false] at h ⊢
  intro p hp
  exact h p (List.mem_of_mem_filter hp)

theorem ctxHas_ctxSet (c : Ctx) (k' : String) (v : JValue) (k : String) :
    ctxHas (ctxSet c k' v) k = ctxHas c k := by
  induction c with
  | nil => rfl
  | cons p rest ih =>
    simp only [ctxSet, List.map_cons]
    by_cases hp : p.1 = k'
    · rw [if_pos hp]
      simp only [ctxHas, List.any_cons, hp]
      exact congrArg (fun b => (decide (k' = k) || b)) ih
    · rw [if_neg hp]
      simp only [ctxHas, List.any_cons]
      exact congrArg (fun b => (decide (p.1 = k) || b)) ih

theorem remSqlDef_no_sql (t : Ctx) : ctxHas (remSqlDef t) "sql_definition" = false := by
  unfold remSqlDef
  split
  · simp only [ctxDel, ctxHas, List.any_eq_false]
    intro p hp
    have := List.of_mem_filter hp
    simpa using this
  · simp_all

theorem remDbt_no_sql {t : Ctx} (h : ctxHas t "sql_definition" = false) :
    ctxHas (remDbt t) "sql_definition" = false := by
  unfold remDbt
  split
  · exact ctxHas_ctxDel_false _ h
  · exact h

theorem remLineage_no_sql {t : Ctx} (h : ctxHas t "sql_definition" = false) :
    ctxHas (remLineage t) "sql_definition" = false := by
  unfold remLineage remDownstream
  split <;> split
  · exact ctxHas_ctxDel_false _ (ctxHas_ctxDel_false _ h)
  · exact ctxHas_ctxDel_false _ h
  · exact ctxHas_ctxDel_false _ h
  · exact h

theorem trimCols10_no_sql {t : Ctx} (h : ctxHas t "sql_definition" = false) :
    ctxHas (trimCols10 t) "sql_definition" = false := by
  unfold trimCols10
  split
  · split
    · rw [ctxHas_ctxSet]; exact h
    · exact h
  · exact h

theorem stripColDescs_no_sql {t : Ctx} (h : ctxHas t "sql_definition" = false) :
    ctxHas (stripColDescs t) "sql_definition" = false := by
  unfold stripColDescs
  split
  · rw [ctxHas_ctxSet]; exact h
  · exact h

theorem trimCols5_no_sql {t : Ctx} (h : ctxHas t "sql_definition" = false) :
    ctxHas (trimCols5 t) "sql_definition" = false := by
  unfold trimCols5
  split
  · split
    · rw [ctxHas_ctxSet]; exact h
    · exact h
  · exact h

theorem step2_no_sql (t : Ctx) (m : Nat) :
    ctxHas (truncateStep2 t m) "sql_definition" = false := by
  have h2 := remSqlDef_no_sql t
  unfold truncateStep2
  split
  · exact h2
  · unfold truncateStep3
    split
    · exact remDbt_no_sql h2
    · unfold truncateStep4
      split
      · exact remLineage_no_sql (remDbt_no_sql h2)
      · unfold truncateStep5
        split
        · exact trimCols10_no_sql (remLineage_no_sql (remDbt_no_sql h2))
        · unfold truncateStep6
          split
          · exact stripColDescs_no_sql
              (trimCols10_no_sql (remLineage_no_sql (remDbt_no_sql h2)))
          · exact trimCols5_no_sql (stripColDescs_no_sql
              (trimCols10_no_sql (remLineage_no_sql (remDbt_no_sql h2))))

theorem ctxGet_ctxSet_ne {c : Ctx} {k k' : String} (v : JValue) (h : k ≠ k') :
    ctxGet (ctxSet c k' v) k = ctxGet c k := by
  induction c with
  | nil => rfl
  | cons p rest ih =>
    simp only [ctxSet, List.map_cons]
    by_cases hp : p.1 = k'
    · have hne : ¬ k' = k := fun he => h he.symm
      have hpk : ¬ p.1 = k := fun he => h (he ▸ hp)
      rw [if_pos hp]
      simp only [ctxGet]
      rw [if_neg hne, if_neg hpk]
      exact ih
    · rw [if_neg hp]
      simp only [ctxGet]
      by_cases hq : p.1 = k
      · rw [if_pos hq, if_pos hq]
      · rw [if_neg hq, if_neg hq]
        exact ih

theorem remRawSql_columns (c : Ctx) :
    ctxGet (remRawSql c) "columns" = ctxGet c "columns" := by
  unfold remRawSql
  split
  · exact ctxGet_ctxSet_ne _ (by decide)
  · rfl

/-- The oversized-SQL-only context of the spec's §8 truncation example. -/
def bigSql : String := String.mk (List.replicate 400 'S')

def sqlOnlyCtx : Ctx :=
  [("name", JValue.str "t"), ("type", JValue.str "Table"),
   ("qualified_name", JValue.str "q"), ("sql_definition", JValue.str bigSql)]

set_option maxRecDepth 40000 in
/-- C4 — Truncation ladder. Conjuncts: (1) a context within budget is returned
unchanged; (2) the transliterated control flow equals the spec's fixed degradation
ladder — remove (raw-SQL sub-field, SQL definition, transformation context, lineage
lists, columns→10, column descriptions, columns→5) in exactly that order, re-checking
the budget after each removal and stopping as soon as it is met; (3) whenever an
over-budget context containing a SQL definition has its column list trimmed by
truncation, the SQL field is gone from the output (it is removed at step (2), before
any column handling); (4) the spec's example: a context whose only large field is an
oversized SQL definition is over budget, and truncation removes exactly that field
and lands under budget. -/
theorem truncation_ladder :
    (∀ (c : Ctx) (m : Nat), ctxSize c ≤ m → truncate_context c m = c)
    ∧ (∀ (c : Ctx) (m : Nat), truncate_context c m = spec_truncate c m)
    ∧ (∀ (c : Ctx) (m : Nat) (cols cols₀ : List JValue),
        ¬ ctxSize c ≤ m →
        ctxHas c "sql_definition" = true →
        ctxGet c "columns" = some (JValue.arr cols₀) →
        ctxGet (truncate_context c m) "columns" = some (JValue.arr cols) →
        cols.length < cols₀.length →
        ctxHas (truncate_context c m) "sql_definition" = false)
    ∧ (¬ ctxSize sqlOnlyCtx ≤ 15
        ∧ ctxHas (truncate_context sqlOnlyCtx 15) "sql_definition" = false
        ∧ ctxSize (truncate_context sqlOnlyCtx 15) ≤ 15) := by
  refine ⟨?_, ?_, ?_, ?_⟩
  · intro c m h
    unfold truncate_context
    rw [if_pos (show estimate_token_count (dumps (JValue.obj c)) ≤ m from h)]
  · intro c m
    exact truncate_eq_ladder c m
  · intro c m cols cols₀ h0 _ hc0 hout hlt
    have h0e : ¬ estimate_token_count (dumps (JValue.obj c)) ≤ m := h0
    unfold truncate_context at hout ⊢
    rw [if_neg h0e] at hout ⊢
    cases hd : ctxHas c "dbt_context" with
    | true =>
      simp only [hd, if_true] at hout ⊢
      by_cases h1 : ctxSize (remRawSql c) ≤ m
      · rw [if_pos h1] at hout ⊢
        rw [remRawSql_columns, hc0] at hout
        have hcols : cols₀ = cols := by
          have := Option.some.inj hout
          exact (JValue.arr.inj this)
        rw [hcols] at hlt
        exact absurd hlt (lt_irrefl _)
      · rw [if_neg h1] at hout ⊢
        exact step2_no_sql _ m
    | false =>
      simp only [hd, Bool.false_eq_true, if_false] at hout ⊢
      exact step2_no_sql c m
  · refine ⟨by decide, ?_, by decide⟩
    decide

/-- Witness for C4 applying conjuncts (1) and (3) at concrete inputs: a small
context is returned unchanged, and a context with a big SQL definition and 12
columns, truncated under a budget that forces the column trim, comes out without
its SQL field. -/
def colJ (s : String) : JValue := JValue.obj [("name", JValue.str s)]

def colsList : List JValue :=
  [colJ "c01", colJ "c02", colJ "c03", colJ "c04", colJ "c05", colJ "c06",
   colJ "c07", colJ "c08", colJ "c09", colJ "c10", colJ "c11", colJ "c12"]

def colsCtx : Ctx :=
  [("name", JValue.str "t"), ("columns", JValue.arr colsList),
   ("sql_definition", JValue.str bigSql)]

set_option maxRecDepth 40000 in
theorem truncation_ladder_witness :
    truncate_context [("name", JValue.str "t")] 2000 = [("name", JValue.str "t")]
    ∧ ctxHas (truncate_context colsCtx 50) "sql_definition" = false :=
  ⟨truncation_ladder.1 [("name", JValue.str "t")] 2000 (by decide),
   truncation_ladder.2.2.1 colsCtx 50 (colsList.take 10) colsList (by decide)
     (by decide) rfl rfl (by decide)⟩

/-!
### C8 — JSON extraction (`src/clients/llm_client.py`, lines 51-99)

`generate_json` (lines 51-74) and `generate_json_array` (lines 76-99) receive the
LLM response text, cut `text[text.find(X) : text.rfind(Y) + 1]` for `X, Y` the
object or array brackets, and hand the cut to `json.loads`; when `find` returns
`-1` or the cut would be empty they raise `ValueError` with the documented message.
The response text is the only input that matters, so the functions are embedded as
pure functions of it; the `ValueError` / `json.JSONDecodeError` exceptions (both
re-raised to the caller, lines 69-74) are the `Except.error` branch.

CPython's `json.loads` is not repository code; it is embedded below as a
recursive-descent reader with the same acceptance behaviour on the inputs at play:
whitespace between tokens, objects, arrays, strings with the standard escapes,
`true` / `false` / `null`, and number tokens (lexed as maximal sign-digit-dot-exp
runs; their internal grammar is not re-validated), with trailing non-whitespace
after the first value rejected as `Extra data`. Error messages carry the kind
prefix of the CPython message only.
-/

/-- Index of the first occurrence of `c` in the list, if any. -/
def idxOf? (c : Char) : List Char → Option Nat
  | [] => none
  | x :: rest => if x = c then some 0 else (idxOf? c rest).map (fun i => i + 1)

/-- Python `text.find(c)` (line 62): first index, or `-1` when absent. -/
def pyFind (s : List Char) (c : Char) : Int :=
  match idxOf? c s with
  | some i => (i : Int)
  | none => -1

/-- Python `text.rfind(c)` (line 63): last index, or `-1` when absent; the last
occurrence is the mirror of the first occurrence in the reversed list. -/
def pyRfind (s : List Char) (c : Char) : Int :=
  match idxOf? c s.reverse with
  | some j => ((s.length - 1 - j : Nat) : Int)
  | none => -1

/-- Python slice-bound normalization: a negative bound counts from the end, and
both bounds clamp to `[0, length]`. -/
def pyIdxNorm (len : Nat) (i : Int) : Nat :=
  if i < 0 then (i + len).toNat else min i.toNat len

/-- Python `text[a:b]` (line 65). -/
def pySlice (s : List Char) (a b : Int) : List Char :=
  (s.take (pyIdxNorm s.length b)).drop (pyIdxNorm s.length a)

/-- JSON inter-token whitespace skipping (space, tab, newline, carriage return). -/
def skipWs : List Char → List Char
  | [] => []
  | c :: rest =>
    if c = ' ' ∨ c = '\t' ∨ c = '\n' ∨ c = '\r' then skipWs rest
    else c :: rest

/-- Value of one hexadecimal digit. -/
def hexVal (c : Char) : Option Nat :=
  if '0' ≤ c ∧ c ≤ '9' then some (c.toNat - 48)
  else if 'a' ≤ c ∧ c ≤ 'f' then some (c.toNat - 87)
  else if 'A' ≤ c ∧ c ≤ 'F' then some (c.toNat - 55)
  else none

/-- Named JSON string escapes. -/
def escMap (e : Char) : Option Char :=
  if e = '"' then some '"'
  else if e = '\\' then some '\\'
  else if e = '/' then some '/'
  else if e = 'b' then some (Char.ofNat 8)
  else if e = 'f' then some (Char.ofNat 12)
  else if e = 'n' then some '\n'
  else if e = 'r' then some '\r'
  else if e = 't' then some '\t'
  else none

/-- Body of a JSON string after the opening quote: the decoded characters and the
remainder after the closing quote, `none` on a bad escape or a missing close. -/
def readStr : List Char → Option (List Char × List Char)
  | [] => none
  | '"' :: rest => some ([], rest)
  | '\\' :: 'u' :: h1 :: h2 :: h3 :: h4 :: rest =>
    match hexVal h1, hexVal h2, hexVal h3, hexVal h4 with
    | some a, some b, some c, some d =>
      match readStr rest with
      | some (cs, rem) => some (Char.ofNat (4096 * a + 256 * b + 16 * c + d) :: cs, rem)
      | none => none
    | _, _, _, _ => none
  | '\\' :: e :: rest =>
    match escMap e with
    | some ec =>
      match readStr rest with
      | some (cs, rem) => some (ec :: cs, rem)
      | none => none
    | none => none
  | c :: rest =>
    match readStr rest with
    | some (cs, rem) => some (c :: cs, rem)
    | none => none

/-- Leading character of a number token. -/
def numStart (c : Char) : Bool := decide (c = '-' ∨ ('0' ≤ c ∧ c ≤ '9'))

/-- Continuation character of a number token. -/
def numChar (c : Char) : Bool :=
  decide (('0' ≤ c ∧ c ≤ '9') ∨ c = '.' ∨ c = 'e' ∨ c = 'E' ∨ c = '+' ∨ c = '-')

/-- Maximal run of number-token characters and the remainder. -/
def numSpan : List Char → List Char × List Char
  | [] => ([], [])
  | c :: rest =>
    if numChar c then
      match numSpan rest with
      | (ds, rem) => (c :: ds, rem)
    else ([], c :: rest)

mutual

/-- Recursive-descent JSON value reader; the fuel argument only bounds the
recursion depth (the top entry supplies more fuel than any input can consume), so
exhaustion shares the generic error. -/
def parseVal : Nat → List Char → Except String (JValue × List Char)
  | 0, _ => Except.error "Expecting value"
  | fuel + 1, s =>
    match skipWs s with
    | [] => Except.error "Expecting value"
    | c :: rest =>
      if c = obChar then
        match skipWs rest with
        | [] => Except.error "Expecting property name enclosed in double quotes"
        | d :: rest2 =>
          if d = cbChar then Except.ok (JValue.obj [], rest2)
          else
            match parseMembers fuel (d :: rest2) with
            | Except.ok (fs, rem) => Except.ok (JValue.obj fs, rem)
            | Except.error e => Except.error e
      else if c = '[' then
        match skipWs rest with
        | [] => Except.error "Expecting value"
        | d :: rest2 =>
          if d = ']' then Except.ok (JValue.arr [], rest2)
          else
            match parseItems fuel (d :: rest2) with
            | Except.ok (vs, rem) => Except.ok (JValue.arr vs, rem)
            | Except.error e => Except.error e
      else if c = '"' then
        match readStr rest with
        | some (cs, rem) => Except.ok (JValue.str (String.mk cs), rem)
        | none => Except.error "Unterminated string starting at"
      else if c = 't' then
        match rest with
        | 'r' :: 'u' :: 'e' :: rem => Except.ok (JValue.bool true, rem)
        | _ => Except.error "Expecting value"
      else if c = 'f' then
        match rest with
        | 'a' :: 'l' :: 's' :: 'e' :: rem => Except.ok (JValue.bool false, rem)
        | _ => Except.error "Expecting value"
      else if c = 'n' then
        match rest with
        | 'u' :: 'l' :: 'l' :: rem => Except.ok (JValue.null, rem)
        | _ => Except.error "Expecting value"
      else if numStart c then
        match numSpan (c :: rest) with
        | (ds, rem) => Except.ok (JValue.num (String.mk ds), rem)
      else Except.error "Expecting value"

/-- Members of a non-empty object, up to and including the closing brace. -/
def parseMembers : Nat → List Char → Except String (List (String × JValue) × List Char)
  | 0, _ => Except.error "Expecting property name enclosed in double quotes"
  | fuel + 1, s =>
    match s with
    | '"' :: rest =>
      match readStr rest with
      | none => Except.error "Unterminated string starting at"
      | some (kcs, rem) =>
        match skipWs rem with
        | ':' :: rem2 =>
          match parseVal fuel rem2 with
          | Except.error e => Except.error e
          | Except.ok (v, rem3) =>
            match skipWs rem3 with
            | ',' :: rem4 =>
              match parseMembers fuel (skipWs rem4) with
              | Except.ok (fs, rem5) => Except.ok ((String.mk kcs, v) :: fs, rem5)
              | Except.error e => Except.error e
            | d :: rem4 =>
              if d = cbChar then Except.ok ([(String.mk kcs, v)], rem4)
              else Except.error "Expecting comma delimiter"
            | [] => Except.error "Expecting comma delimiter"
        | _ => Except.error "Expecting colon delimiter"
    | _ => Except.error "Expecting property name enclosed in double quotes"

/-- Items of a non-empty array, up to and including the closing bracket. -/
def parseItems : Nat → List Char → Except String (List JValue × List Char)
  | 0, _ => Except.error "Expecting value"
  | fuel + 1, s =>
    match parseVal fuel s with
    | Except.error e => Except.error e
    | Except.ok (v, rem) =>
      match skipWs rem with
      | ',' :: rem2 =>
        match parseItems fuel (skipWs rem2) with
        | Except.ok (vs, rem3) => Except.ok (v :: vs, rem3)
        | Except.error e => Except.error e
      | ']' :: rem2 => Except.ok ([v], rem2)
      | _ => Except.error "Expecting comma delimiter"

end

/-- CPython `json.loads` on our value model: one value, then nothing but
whitespace may remain — anything else is the `Extra data` decode error. -/
def loads (s : String) : Except String JValue :=
  match parseVal (2 * s.data.length + 4) s.data with
  | Except.error e => Except.error e
  | Except.ok (v, rem) =>
    if skipWs rem = [] then Except.ok v else Except.error "Extra data"

/-- `ClaudeClient.generate_json` (lines 51-74) as a function of the response text:
cut from the first opening brace to one past the last closing brace and parse the
cut; raise `ValueError` when there is no such span. -/
def generate_json (text : String) : Except String JValue :=
  if pyFind text.data obChar ≠ -1 ∧
      pyRfind text.data cbChar + 1 > pyFind text.data obChar then
    loads (String.mk (pySlice text.data (pyFind text.data obChar)
      (pyRfind text.data cbChar + 1)))
  else Except.error "No valid JSON found in response"

/-- `ClaudeClient.generate_json_array` (lines 76-99): the same with square
brackets and the array error message. -/
def generate_json_array (text : String) : Except String JValue :=
  if pyFind text.data '[' ≠ -1 ∧
      pyRfind text.data ']' + 1 > pyFind text.data '[' then
    loads (String.mk (pySlice text.data (pyFind text.data '[')
      (pyRfind text.data ']' + 1)))
  else Except.error "No valid JSON array found in response"

/-- Depth scan for the spec-side reading: collect characters from an opening
bracket (already consumed into `acc` at depth 1) until the matching close. -/
def scanBal (oc cc : Char) : List Char → Nat → List Char → Option (List Char)
  | [], _, _ => none
  | c :: rest, depth, acc =>
    if c = oc then scanBal oc cc rest (depth + 1) (c :: acc)
    else if c = cc then
      if depth ≤ 1 then some (c :: acc).reverse
      else scanBal oc cc rest (depth - 1) (c :: acc)
    else scanBal oc cc rest depth (c :: acc)

/-- Spec-side definition, for refinement comparison only (the spec's words: "the
first balanced `...` substring found in the response"): the substring from the
first opening bracket to its matching close. -/
def firstBalanced (oc cc : Char) : List Char → Option (List Char)
  | [] => none
  | c :: rest => if c = oc then scanBal oc cc rest 1 [c] else firstBalanced oc cc rest

/-- Spec-side extraction, for refinement comparison only: parse the first balanced
object region, tolerating all surrounding text. -/
def spec_extract_json (text : String) : Except String JValue :=
  match firstBalanced obChar cbChar text.data with
  | some span => loads (String.mk span)
  | none => Except.error "No valid JSON found in response"

/-- Clean description of the span the code actually cuts: from the first
occurrence of the opening bracket to one past the last occurrence of the closing
bracket, provided both exist in that order. -/
def spanFromTo (oc cc : Char) (s : List Char) : Option (List Char) :=
  match idxOf? oc s with
  | none => none
  | some i =>
    match idxOf? cc s.reverse with
    | none => none
    | some j =>
      if i < s.length - j then some ((s.take (s.length - j)).drop i) else none

/-- A response holding two balanced objects amid explanatory text. -/
def exC8 : String := "note \x7b\"a\": 1\x7d and \x7b\"b\": 2\x7d end"

theorem idxOf?_lt_length {c : Char} :
    ∀ {l : List Char} {i : Nat}, idxOf? c l = some i → i < l.length := by
  intro l
  induction l with
  | nil => intro i h; exact absurd h (by simp [idxOf?])
  | cons x rest ih =>
    intro i h
    simp only [idxOf?] at h
    by_cases hx : x = c
    · rw [if_pos hx] at h
      have h0 := Option.some.inj h
      simp only [List.length_cons]
      omega
    · rw [if_neg hx] at h
      cases ho : idxOf? c rest with
      | none => rw [ho] at h; exact absurd h (by simp)
      | some i2 =>
        rw [ho] at h
        simp only [Option.map_some'] at h
        have h0 := Option.some.inj h
        have h2 := ih ho
        simp only [List.length_cons]
        omega

theorem extract_eq_span (oc cc : Char) (e : String) (s : List Char) :
    (if pyFind s oc ≠ -1 ∧ pyRfind s cc + 1 > pyFind s oc then
        loads (String.mk (pySlice s (pyFind s oc) (pyRfind s cc + 1)))
      else Except.error e)
      = (match spanFromTo oc cc s with
         | some sp => loads (String.mk sp)
         | none => Except.error e) := by
  cases h1 : idxOf? oc s with
  | none =>
    simp only [pyFind, spanFromTo, h1]
    rw [if_neg (fun hc => hc.1 rfl)]
  | some i =>
    have hi : i < s.length := idxOf?_lt_length h1
    cases h2 : idxOf? cc s.reverse with
    | none =>
      simp only [pyFind, pyRfind, spanFromTo, h1, h2]
      rw [if_neg (fun hc => absurd hc.2 (by omega))]
    | some j =>
      have hj : j < s.reverse.length := idxOf?_lt_length h2
      rw [List.length_reverse] at hj
      simp only [pyFind, pyRfind, spanFromTo, h1, h2]
      by_cases hcond : i < s.length - j
      · have hslice : pySlice s (i : Int) (((s.length - 1 - j : Nat) : Int) + 1)
            = (s.take (s.length - j)).drop i := by
          unfold pySlice pyIdxNorm
          rw [if_neg (by omega : ¬ (((s.length - 1 - j : Nat) : Int) + 1 < 0)),
            if_neg (by omega : ¬ ((i : Nat) : Int) < 0)]
          rw [(by omega : (((s.length - 1 - j : Nat) : Int) + 1).toNat = s.length - j),
            (by omega : ((i : Nat) : Int).toNat = i)]
          rw [Nat.min_eq_left (Nat.sub_le s.length j), Nat.min_eq_left (Nat.le_of_lt hi)]
        rw [if_pos ⟨by omega, by omega⟩, if_pos hcond, hslice]
      · rw [if_neg (fun hc => hcond (by omega)), if_neg hcond]

/-- C8 — counterexample. The spec says the object call "parses the first balanced
\x7b...\x7d substring found in the response — tolerating leading and trailing
explanatory text around the JSON". On a response holding two balanced objects amid
text, the first balanced substring exists and parses cleanly, yet `generate_json`
raises the `Extra data` decode error: lines 62-63 cut from the first opening brace
to the LAST closing brace, so the cut spans both objects plus the text between
them. The no-region error message of the final conjunct is the part of the claim
that does hold. -/
theorem json_extraction_counterexample :
    firstBalanced obChar cbChar exC8.data
      = some ("\x7b\"a\": 1\x7d" : String).data
    ∧ spec_extract_json exC8 = Except.ok (JValue.obj [("a", JValue.num "1")])
    ∧ generate_json exC8 = Except.error "Extra data"
    ∧ generate_json "no json here" = Except.error "No valid JSON found in response"
    ∧ generate_json_array "no json here"
        = Except.error "No valid JSON array found in response" :=
  ⟨rfl, rfl, rfl, rfl, rfl⟩

/-- C8 — amended. What each call parses is the span from the FIRST opening
bracket to one past the LAST closing bracket (when both exist in that order, so
leading and trailing text is tolerated only when the response holds a single
balanced region); when the text has no such span the call fails with the
documented `ValueError` message. -/
theorem json_extraction_amended (text : String) :
    generate_json text
      = (match spanFromTo obChar cbChar text.data with
         | some sp => loads (String.mk sp)
         | none => Except.error "No valid JSON found in response")
    ∧ generate_json_array text
      = (match spanFromTo '[' ']' text.data with
         | some sp => loads (String.mk sp)
         | none => Except.error "No valid JSON array found in response") :=
  ⟨extract_eq_span obChar cbChar "No valid JSON found in response" text.data,
   extract_eq_span '[' ']' "No valid JSON array found in response" text.data⟩

/-!
### C9 — Concurrency bound (`src/generators/term_generator.py`, lines 19-41 and 125-158)

`TermGenerator.__init__` (lines 19-30) creates `asyncio.Semaphore(max_concurrent)`
with `max_concurrent = 3` by default; `generate_term` (lines 32-41) wraps its LLM
call in `async with self._semaphore`, and `generate_all_terms` (lines 125-158)
walks the assets in slices of `batch_size` (default 5), awaiting each batch's
`gather` before starting the next and sleeping the fixed 1 second between batches.

A pure embedding cannot run the event loop, so the scheduler is modelled by event
traces: `SemEv.acq` / `SemEv.rel` mark a generator call entering / leaving the
semaphore-guarded region, `SemEv.pause` marks the inter-batch sleep. `semOK cap c`
is admissibility by the semaphore holding `c` free permits: an acquisition only
ever happens with a permit free (a blocked task simply does not produce its event
yet), and a release only with a matching acquisition outstanding (the `async with`
discipline). `runTrace` is the shape the sequential batch loop imposes: the
batches' traces in order, a pause between consecutive batches and after none
other. The bound is semaphore safety: starting from `cap` free permits, every
prefix of an admissible trace has at most `cap` calls in flight.
-/

/-- Scheduler events: a generator call acquires or releases the semaphore, or the
batch loop sleeps between batches. -/
inductive SemEv where
  | acq
  | rel
  | pause
deriving DecidableEq, Repr

/-- Occurrences of event `e` in a trace. -/
def countEv (e : SemEv) (t : List SemEv) : Nat :=
  (t.filter (fun x => decide (x = e))).length

/-- Calls in flight after a trace: acquisitions minus releases. -/
def inFlight (t : List SemEv) : Int :=
  (countEv SemEv.acq t : Int) - (countEv SemEv.rel t : Int)

/-- Admissibility of a trace by `asyncio.Semaphore(cap)` holding `c` free
permits. -/
def semOK (cap : Nat) : Nat → List SemEv → Bool
  | _, [] => true
  | c, SemEv.acq :: t => if c = 0 then false else semOK cap (c - 1) t
  | c, SemEv.rel :: t => if c < cap then semOK cap (c + 1) t else false
  | c, SemEv.pause :: t => semOK cap c t

/-- Trace of a whole run from the per-batch traces: batches strictly in order,
one pause between consecutive batches (lines 156-158 sleep only when another
batch remains). -/
def runTrace : List (List SemEv) → List SemEv
  | [] => []
  | [b] => b
  | b :: b2 :: rest => b ++ SemEv.pause :: runTrace (b2 :: rest)

theorem inFlight_cons_acq (l : List SemEv) :
    inFlight (SemEv.acq :: l) = inFlight l + 1 := by
  simp only [inFlight, countEv, List.filter_cons]
  norm_num
  rw [if_neg (fun h => SemEv.noConfusion h)]
  ring

theorem inFlight_cons_rel (l : List SemEv) :
    inFlight (SemEv.rel :: l) = inFlight l - 1 := by
  simp only [inFlight, countEv, List.filter_cons]
  norm_num
  rw [if_neg (fun h => SemEv.noConfusion h)]
  ring

theorem inFlight_cons_pause (l : List SemEv) :
    inFlight (SemEv.pause :: l) = inFlight l := by
  simp only [inFlight, countEv, List.filter_cons]
  norm_num
  rw [if_neg (fun h => SemEv.noConfusion h),
    if_neg (fun h => SemEv.noConfusion h)]

theorem semOK_bound (cap : Nat) :
    ∀ (t : List SemEv) (c : Nat), semOK cap c t = true →
      ∀ k : Nat, inFlight (t.take k) ≤ (c : Int) := by
  intro t
  induction t with
  | nil =>
    intro c _ k
    simp [inFlight, countEv]
  | cons e t ih =>
    intro c h k
    cases k with
    | zero => simp [inFlight, countEv]
    | succ k =>
      rw [List.take_succ_cons]
      cases e with
      | acq =>
        simp only [semOK] at h
        by_cases hc : c = 0
        · rw [if_pos hc] at h
          exact absurd h (by simp)
        · rw [if_neg hc] at h
          have hih := ih (c - 1) h k
          rw [inFlight_cons_acq]
          omega
      | rel =>
        simp only [semOK] at h
        by_cases hc : c < cap
        · rw [if_pos hc] at h
          have hih := ih (c + 1) h k
          rw [inFlight_cons_rel]
          omega
        · rw [if_neg hc] at h
          exact absurd h (by simp)
      | pause =>
        simp only [semOK] at h
        rw [inFlight_cons_pause]
        exact ih c h k

theorem chunksGo_mem_length_le (bs : Nat) :
    ∀ (fuel : Nat) (l : List AssetMetadata), l.length ≤ fuel →
      ∀ c ∈ chunksGo (bs + 1) fuel l, c.length ≤ bs + 1 := by
  intro fuel
  induction fuel with
  | zero =>
    intro l hl c hc
    have : l = [] := List.eq_nil_of_length_eq_zero (Nat.le_zero.mp hl)
    rw [this] at hc
    exact absurd hc (by simp [chunksGo])
  | succ fuel ih =>
    intro l hl c hc
    cases l with
    | nil => exact absurd hc (by simp [chunksGo])
    | cons x xs =>
      simp only [chunksGo, List.mem_cons] at hc
      cases hc with
      | inl hhead =>
        rw [hhead]
        have := List.length_take (bs + 1) (x :: xs)
        omega
      | inr htail =>
        apply ih ((x :: xs).drop (bs + 1)) _ c htail
        rw [List.length_drop]
        simp only [List.length_cons] at hl ⊢
        omega

/-- One admissible batch trace of five calls whose parallelism touches the cap 3:
three acquisitions, then releases interleaved with the remaining two calls. -/
def exBatchSched : List SemEv :=
  [SemEv.acq, SemEv.acq, SemEv.acq, SemEv.rel, SemEv.acq, SemEv.rel,
   SemEv.acq, SemEv.rel, SemEv.rel, SemEv.rel]

/-- The spec's example run: 20 assets in four batches of five. -/
def exScheds20 : List (List SemEv) := List.replicate 4 exBatchSched

/-- Twenty assets for the example run. -/
def exAssets20 : List AssetMetadata :=
  List.replicate 20 { qualified_name := "w", name := "w", type_name := "Table" }

/-- C9 — Concurrency bound. Conjuncts: (1) semaphore safety: starting from `cap`
free permits, every prefix of a trace the semaphore admits has at most `cap`
calls in flight — with `max_concurrent = 3` this is the claim's never-failing
assertion; (2) batches are strictly sequential with the fixed pause between
consecutive batches: the run trace is the first batch, then — exactly when more
batches remain — one pause followed by the rest; (3) the batch slicing partitions
the assets in order; (4) every slice holds at most `batch_size` assets; (5) the
claim's 20-asset example: four batches of five whose parallelism reaches 3 are
admitted by the semaphore at cap 3, and every prefix of the run stays within 3
in-flight calls. -/
theorem concurrency_bound :
    (∀ (cap : Nat) (t : List SemEv), semOK cap cap t = true →
        ∀ k : Nat, inFlight (t.take k) ≤ (cap : Int))
    ∧ (∀ (b : List SemEv) (scheds : List (List SemEv)),
        runTrace (b :: scheds)
          = b ++ (if scheds = [] then [] else SemEv.pause :: runTrace scheds))
    ∧ (∀ (bs : Nat) (xs : List AssetMetadata), (chunks bs xs).flatten = xs)
    ∧ (∀ (bs : Nat) (xs : List AssetMetadata) (c : List AssetMetadata),
        c ∈ chunks (bs + 1) xs → c.length ≤ bs + 1)
    ∧ (semOK 3 3 (runTrace exScheds20) = true
        ∧ exScheds20.length = (chunks 5 exAssets20).length
        ∧ ∀ k : Nat, inFlight ((runTrace exScheds20).take k) ≤ (3 : Int)) := by
  refine ⟨fun cap t h k => semOK_bound cap t cap h k, ?_, ?_, ?_, ?_, ?_, ?_⟩
  · intro b scheds
    cases scheds with
    | nil => simp [runTrace]
    | cons b2 rest => simp [runTrace]
  · intro bs xs
    exact chunks_flatten bs xs
  · intro bs xs c hc
    exact chunksGo_mem_length_le bs xs.length xs le_rfl c hc
  · decide
  · decide
  · exact fun k => semOK_bound 3 (runTrace exScheds20) 3 (by decide) k

/-- Witness for C9: the semaphore-safety conjunct applied to a concrete admitted
trace of two overlapping calls, and the slice-size conjunct applied to the
singleton batch of a one-asset run. -/
theorem concurrency_bound_witness :
    semOK 3 3 [SemEv.acq, SemEv.acq, SemEv.rel] = true
    ∧ inFlight ([SemEv.acq, SemEv.acq, SemEv.rel].take 2) ≤ (3 : Int)
    ∧ exAssets20.take 1 ∈ chunks 5 (exAssets20.take 1)
    ∧ (exAssets20.take 1).length ≤ 5 := by
  have hmem : exAssets20.take 1 ∈ chunks 5 (exAssets20.take 1) := List.Mem.head _
  exact ⟨by decide,
    concurrency_bound.1 3 [SemEv.acq, SemEv.acq, SemEv.rel] (by decide) 2,
    hmem,
    concurrency_bound.2.2.2.1 4 (exAssets20.take 1) (exAssets20.take 1) hmem⟩

end GlossaryGen


